import Mathlib

/-! # dd-trace-rb profiling native extension

A shallow embedding of `http_transport.c` (the cancellable profile upload) and of
`collectors_cpu_and_wall_time.c` (the per-thread sampler skeleton).

Ruby values are an inductive type, Ruby exceptions are the error side of a
result, and every call into libddprof or back into the Ruby VM is recorded in an
event trace, so that allocation and release of foreign objects can be counted.
libddprof and the Ruby VM are not part of the extension: what they answer is a
parameter of the model (`Libddprof`, `Host`).
-/

set_option autoImplicit false

/-! ## Ruby values and exceptions -/

/-- Ruby values, as far as the extension looks into them. `obj` stands for any
object the extension only passes around (threads, recorders, collectors). -/
inductive Value where
  | nil : Value
  | qtrue : Value
  | int (n : Int) : Value
  | sym (id : String) : Value
  | str (s : String) : Value
  | ary (elems : List Value) : Value
  | obj (addr : Nat) : Value

/-- The `T_...` type tags that `Check_Type` and `RB_TYPE_P` compare against. -/
inductive RubyType where
  | T_NIL | T_TRUE | T_FIXNUM | T_BIGNUM | T_SYMBOL | T_STRING | T_ARRAY | T_OBJECT
  deriving DecidableEq, Repr

/-- Ruby exceptions the extension raises or lets through. `jump state` is an
exception re-raised with `rb_jump_tag(state)`. -/
inductive RbError where
  | argError (msg : String)
  | typeError
  | rangeError
  | jump (state : Nat)
  deriving DecidableEq, Repr

/-- Integers in the 63-bit immediate range are `T_FIXNUM` (64-bit platform). -/
def fixable (n : Int) : Bool := decide (-(2 : Int) ^ 62 ≤ n) && decide (n < (2 : Int) ^ 62)

/-- The type tag of a value (`rb_type`). -/
def rb_type : Value → RubyType
  | .nil => .T_NIL
  | .qtrue => .T_TRUE
  | .int n => if fixable n then .T_FIXNUM else .T_BIGNUM
  | .sym _ => .T_SYMBOL
  | .str _ => .T_STRING
  | .ary _ => .T_ARRAY
  | .obj _ => .T_OBJECT

def RB_TYPE_P (v : Value) (t : RubyType) : Bool := decide (rb_type v = t)

def NIL_P : Value → Bool
  | .nil => true
  | _ => false

/-- The array element at `i`, `nil` when out of bounds (see the note in
`convert_tags`). Only called on values already checked to be arrays. -/
def rb_ary_entry : Value → Nat → Value
  | .ary elems, i => elems.getD i .nil
  | _, _ => .nil

/-! ## libddprof objects -/

/-- A `ddprof_ffi_Vec_tag`: the (name, value) pairs pushed so far. -/
abbrev ddprof_ffi_Vec_tag := List (String × String)

inductive ddprof_ffi_EndpointV3 where
  | agentless (site api_key : String)
  | agent (base_url : String)
  deriving DecidableEq, Repr

/-- What a `ddprof_ffi_ProfileExporterV3` was built from. -/
structure ddprof_ffi_ProfileExporterV3 where
  family : String
  tags : ddprof_ffi_Vec_tag
  endpoint : ddprof_ffi_EndpointV3
  deriving DecidableEq, Repr

inductive ddprof_ffi_NewProfileExporterV3Result where
  | ok (exporter : ddprof_ffi_ProfileExporterV3)
  | err (details : String)
  deriving DecidableEq, Repr

structure ddprof_ffi_Timespec where
  seconds : Int
  nanoseconds : Nat
  deriving DecidableEq, Repr

structure ddprof_ffi_File where
  name : String
  file : String
  deriving DecidableEq, Repr

/-- What a `ddprof_ffi_Request` was built from. -/
structure ddprof_ffi_Request where
  exporter : ddprof_ffi_ProfileExporterV3
  start : ddprof_ffi_Timespec
  finish : ddprof_ffi_Timespec
  slice_files : List ddprof_ffi_File
  additional_tags : Option ddprof_ffi_Vec_tag
  timeout_milliseconds : Nat
  deriving DecidableEq, Repr

inductive ddprof_ffi_SendResult where
  | http_response (code : Nat)
  | failure (details : String)
  deriving DecidableEq, Repr

/-- The answers of libddprof. `tag_error name value` is the error of
`ddprof_ffi_Vec_tag_push` for that pair (`none`: the pair is appended; otherwise
the vector is left as it was), `exporter_error` the error of
`ddprof_ffi_ProfileExporterV3_new`, and `send request cancelled` the outcome of
`ddprof_ffi_ProfileExporterV3_send` given whether the token was cancelled. -/
structure Libddprof where
  tag_error : String → String → Option String
  exporter_error : String → ddprof_ffi_Vec_tag → ddprof_ffi_EndpointV3 → Option String
  send : ddprof_ffi_Request → Bool → ddprof_ffi_SendResult

/-- One call of `rb_thread_call_without_gvl2`: either it ran the function
(`ran ubf pending`, where `ubf` tells whether the unblocking function was called
while the send was outstanding), or an interrupt made it return before running
it (`not_run pending`). In both, `pending` is what `check_if_pending_exception`
answers when the call is back; zero means no exception is pending. -/
inductive GvlOutcome where
  | ran (ubf : Bool) (pending : Nat)
  | not_run (pending : Nat)
  deriving DecidableEq, Repr

/-- The answers of the Ruby VM. `log_raises i msg` is the exception state that
`rb_protect` reports for the logging callback called for the tag at position `i`
(zero: it returned), `without_gvl i` is what the `i`-th call of
`rb_thread_call_without_gvl2` does. -/
structure Host where
  log_raises : Nat → String → Nat
  without_gvl : Nat → GvlOutcome

/-! ## Event traces -/

/-- Calls into libddprof and the logging callback, in program order. -/
inductive Event where
  | Vec_tag_new
  | Vec_tag_push (name value : String)
  | PushTagResult_drop
  | log_failure_to_process_tag (err_details : String)
  | Vec_tag_drop
  | ProfileExporterV3_new (tags : ddprof_ffi_Vec_tag) (endpoint : ddprof_ffi_EndpointV3)
  | NewProfileExporterV3Result_drop
  | CancellationToken_new
  | CancellationToken_cancel
  | CancellationToken_drop
  | ProfileExporterV3_build (request : ddprof_ffi_Request)
  | ProfileExporterV3_send (request : ddprof_ffi_Request) (cancelled : Bool)
  | SendResult_drop
  deriving DecidableEq, Repr

/-- A computation that records events and either returns or raises. The trace
is kept when an exception is raised. -/
structure Run (α : Type) where
  trace : List Event
  result : Except RbError α

def Run.pure {α : Type} (a : α) : Run α := ⟨[], .ok a⟩

def Run.bind {α β : Type} (r : Run α) (f : α → Run β) : Run β :=
  match r.result with
  | .ok a => ⟨r.trace ++ (f a).trace, (f a).result⟩
  | .error e => ⟨r.trace, .error e⟩

instance : Monad Run where
  pure := Run.pure
  bind := Run.bind

/-- Record one event. -/
def emit (e : Event) : Run Unit := ⟨[e], .ok ()⟩

/-- Raise a Ruby exception (`rb_raise`, `rb_jump_tag`). -/
def raise {α : Type} (e : RbError) : Run α := ⟨[], .error e⟩

/-- The macro `Check_Type(v, t)`: a type error unless `v` has type `t`. -/
def Check_Type (v : Value) (t : RubyType) : Run Unit :=
  if RB_TYPE_P v t then Run.pure () else raise .typeError

/-- The identifier of a symbol; `SYM2ID` verifies its input. -/
def SYM2ID : Value → Run String
  | .sym id => Run.pure id
  | _ => raise .typeError

/-- The content of a Ruby string; `StringValuePtr` of anything else is never
reached behind `Check_Type`. -/
def string_content : Value → String
  | .str s => s
  | _ => ""

def byte_slice_from_ruby_string (string : Value) : Run String := do
  Check_Type string .T_STRING
  pure (string_content string)

/-- Modelled from the spec: `char_slice_from_ruby_string` of
`libddprof_helpers.h`, which is not among the sources; a thin adapter from a
host string to a foreign char slice. -/
def char_slice_from_ruby_string (string : Value) : Run String := do
  Check_Type string .T_STRING
  pure (string_content string)

/-- Modelled from the spec: `ruby_string_from_vec_u8` of `libddprof_helpers.h`,
which is not among the sources; a thin adapter from a foreign byte vector to a
host string. -/
def ruby_string_from_vec_u8 (bytes : String) : Value := .str bytes

/-! ## http_transport.c -/

def ok_symbol : Value := .sym "ok"
def error_symbol : Value := .sym "error"
def agentless_id : String := "agentless"
def agent_id : String := "agent"

def endpoint_from (exporter_configuration : Value) : Run ddprof_ffi_EndpointV3 := do
  Check_Type exporter_configuration .T_ARRAY
  let working_mode ← SYM2ID (rb_ary_entry exporter_configuration 0)
  if working_mode ≠ agentless_id ∧ working_mode ≠ agent_id then
    raise (.argError "Failed to initialize transport: Unexpected working mode, expected :agentless or :agent")
  if working_mode = agentless_id then
    let site := rb_ary_entry exporter_configuration 1
    let api_key := rb_ary_entry exporter_configuration 2
    Check_Type site .T_STRING
    Check_Type api_key .T_STRING
    let site_slice ← char_slice_from_ruby_string site
    let api_key_slice ← char_slice_from_ruby_string api_key
    pure (.agentless site_slice api_key_slice)
  else
    let base_url := rb_ary_entry exporter_configuration 1
    Check_Type base_url .T_STRING
    let base_url_slice ← char_slice_from_ruby_string base_url
    pure (.agent base_url_slice)

/-- The protected logging call for the tag at position `i`: when the callback
raised, the tag vector is dropped and the exception re-raised. -/
def safely_log_failure_to_process_tag (host : Host) (i : Nat) (err_details : Value) : Run Unit := do
  emit (.log_failure_to_process_tag (string_content err_details))
  let exception_state := host.log_raises i (string_content err_details)
  if exception_state ≠ 0 then
    emit .Vec_tag_drop
    raise (.jump exception_state)

/-- The body of the `for` loop of `convert_tags`, from position `i` on, over the
remaining elements of the array. -/
def convert_tags_loop (ffi : Libddprof) (host : Host) :
    List Value → Nat → ddprof_ffi_Vec_tag → Run ddprof_ffi_Vec_tag
  | [], _, tags => Run.pure tags
  | name_value_pair :: rest, i, tags => do
    if !RB_TYPE_P name_value_pair .T_ARRAY then
      emit .Vec_tag_drop
      Check_Type name_value_pair .T_ARRAY
    let tag_name := rb_ary_entry name_value_pair 0
    let tag_value := rb_ary_entry name_value_pair 1
    if !(RB_TYPE_P tag_name .T_STRING && RB_TYPE_P tag_value .T_STRING) then
      emit .Vec_tag_drop
      Check_Type tag_name .T_STRING
      Check_Type tag_value .T_STRING
    let name_slice ← char_slice_from_ruby_string tag_name
    let value_slice ← char_slice_from_ruby_string tag_value
    emit (.Vec_tag_push name_slice value_slice)
    match ffi.tag_error name_slice value_slice with
    | some err =>
      let err_details := ruby_string_from_vec_u8 err
      emit .PushTagResult_drop
      safely_log_failure_to_process_tag host i err_details
      convert_tags_loop ffi host rest (i + 1) tags
    | none =>
      emit .PushTagResult_drop
      convert_tags_loop ffi host rest (i + 1) (tags ++ [(name_slice, value_slice)])

def array_elems : Value → List Value
  | .ary elems => elems
  | _ => []

def convert_tags (ffi : Libddprof) (host : Host) (tags_as_array : Value) : Run ddprof_ffi_Vec_tag := do
  Check_Type tags_as_array .T_ARRAY
  emit .Vec_tag_new
  convert_tags_loop ffi host (array_elems tags_as_array) 0 []

/-- The foreign constructor `ddprof_ffi_ProfileExporterV3_new`. -/
def ddprof_ffi_ProfileExporterV3_new (ffi : Libddprof) (family : String) (tags : ddprof_ffi_Vec_tag)
    (endpoint : ddprof_ffi_EndpointV3) : ddprof_ffi_NewProfileExporterV3Result :=
  match ffi.exporter_error family tags endpoint with
  | none => .ok ⟨family, tags, endpoint⟩
  | some details => .err details

def create_exporter (ffi : Libddprof) (host : Host) (exporter_configuration tags_as_array : Value) :
    Run ddprof_ffi_NewProfileExporterV3Result := do
  Check_Type exporter_configuration .T_ARRAY
  Check_Type tags_as_array .T_ARRAY
  let endpoint ← endpoint_from exporter_configuration
  let tags ← convert_tags ffi host tags_as_array
  emit (.ProfileExporterV3_new tags endpoint)
  let exporter_result := ddprof_ffi_ProfileExporterV3_new ffi "ruby" tags endpoint
  emit .Vec_tag_drop
  pure exporter_result

def handle_exporter_failure (exporter_result : ddprof_ffi_NewProfileExporterV3Result) : Run Value :=
  match exporter_result with
  | .ok _ => Run.pure .nil
  | .err details => do
    let err_details := ruby_string_from_vec_u8 details
    emit .NewProfileExporterV3Result_drop
    pure (.ary [error_symbol, err_details])

def _native_validate_exporter (ffi : Libddprof) (host : Host) (exporter_configuration : Value) :
    Run Value := do
  Check_Type exporter_configuration .T_ARRAY
  let exporter_result ← create_exporter ffi host exporter_configuration (.ary [])
  let failure_tuple ← handle_exporter_failure exporter_result
  if !NIL_P failure_tuple then
    pure failure_tuple
  else
    emit .NewProfileExporterV3Result_drop
    pure (.ary [ok_symbol, .nil])

/-- The arguments handed to `call_exporter_without_gvl`. The `result` field is
not meaningful before the send ran. -/
structure call_exporter_without_gvl_arguments where
  exporter : ddprof_ffi_ProfileExporterV3
  request : ddprof_ffi_Request
  result : Option ddprof_ffi_SendResult
  send_ran : Bool
  deriving DecidableEq, Repr

/-- The variables of the retry loop of `perform_export`; `cancelled` is the
state of the cancellation token that `args.cancel_token` points to. -/
structure ExportLoop where
  args : call_exporter_without_gvl_arguments
  cancelled : Bool
  pending_exception : Nat
  deriving DecidableEq, Repr

def call_exporter_without_gvl (ffi : Libddprof) (s : ExportLoop) : List Event × ExportLoop :=
  let result := ffi.send s.args.request s.cancelled
  ([.ProfileExporterV3_send s.args.request s.cancelled],
    { s with args := { s.args with result := some result, send_ran := true } })

def interrupt_exporter_call (s : ExportLoop) : List Event × ExportLoop :=
  ([.CancellationToken_cancel], { s with cancelled := true })

/-- The loop `while (!args.send_ran && !pending_exception)` of `perform_export`,
entered for the `i`-th time. Without fuel left for a further iteration there is
no result. -/
def perform_export_loop (ffi : Libddprof) (host : Host) :
    Nat → Nat → ExportLoop → Option (List Event × ExportLoop)
  | 0, _, s =>
    if !s.args.send_ran && s.pending_exception == 0 then none else some ([], s)
  | fuel + 1, i, s =>
    if !s.args.send_ran && s.pending_exception == 0 then
      match host.without_gvl i with
      | .ran ubf _ =>
        let interrupted := if ubf then interrupt_exporter_call s else ([], s)
        let called := call_exporter_without_gvl ffi interrupted.2
        (perform_export_loop ffi host fuel (i + 1) called.2).map
          (fun rest => (interrupted.1 ++ called.1 ++ rest.1, rest.2))
      | .not_run pending =>
        perform_export_loop ffi host fuel (i + 1) { s with pending_exception := pending }
    else some ([], s)

/-- The upload itself. There is no result for an exporter result that is not
valid (the function reads its `ok` member), nor when the loop has none. -/
def perform_export (ffi : Libddprof) (host : Host)
    (valid_exporter_result : ddprof_ffi_NewProfileExporterV3Result)
    (start finish : ddprof_ffi_Timespec) (slice_files : List ddprof_ffi_File)
    (additional_tags : Option ddprof_ffi_Vec_tag) (timeout_milliseconds : Nat)
    (fuel : Nat) : Option (Run Value) :=
  match valid_exporter_result with
  | .err _ => none
  | .ok exporter =>
    let request : ddprof_ffi_Request :=
      ⟨exporter, start, finish, slice_files, additional_tags, timeout_milliseconds⟩
    let args : call_exporter_without_gvl_arguments :=
      { exporter := exporter, request := request, result := none, send_ran := false }
    match perform_export_loop ffi host fuel 0 ⟨args, false, 0⟩ with
    | none => none
    | some (loop_trace, after_loop) =>
      let pending_exception := after_loop.pending_exception
      let forced :=
        if pending_exception ≠ 0 then
          let interrupted := interrupt_exporter_call after_loop
          let called := call_exporter_without_gvl ffi interrupted.2
          (interrupted.1 ++ called.1, called.2)
        else ([], after_loop)
      match forced.2.args.result with
      | none => none
      | some result =>
        let ruby_status :=
          match result with
          | .http_response _ => ok_symbol
          | .failure _ => error_symbol
        let ruby_result :=
          match result with
          | .http_response code => Value.int code
          | .failure details => ruby_string_from_vec_u8 details
        some
          ⟨[.CancellationToken_new, .ProfileExporterV3_build request] ++ loop_trace ++ forced.1 ++
              [.SendResult_drop, .CancellationToken_drop, .NewProfileExporterV3Result_drop],
            if pending_exception ≠ 0 then .error (.jump pending_exception)
            else .ok (.ary [ruby_status, ruby_result])⟩

/-- The integer behind a fixnum; only reached behind `Check_Type(.., T_FIXNUM)`. -/
def fixnum_value : Value → Int
  | .int n => n
  | _ => 0

/-- The conversion `NUM2ULONG` on a fixnum: a negative value wraps around. -/
def NUM2ULONG (v : Value) : Run Nat := Run.pure (fixnum_value v % 2 ^ 64).toNat

/-- The conversion `NUM2LONG` on a fixnum. -/
def NUM2LONG (v : Value) : Run Int := Run.pure (fixnum_value v)

/-- The conversion `NUM2UINT` on a fixnum: a range error outside of what fits an
`unsigned int` or a negative `int`, and a negative value wraps around. -/
def NUM2UINT (v : Value) : Run Nat :=
  if fixnum_value v < -(2 : Int) ^ 31 ∨ (2 : Int) ^ 32 ≤ fixnum_value v then raise .rangeError
  else Run.pure (fixnum_value v % 2 ^ 32).toNat

/-- What `_native_do_export` has computed when it calls `create_exporter`. -/
structure ExportArguments where
  timeout_milliseconds : Nat
  start : ddprof_ffi_Timespec
  finish : ddprof_ffi_Timespec
  slice_files : List ddprof_ffi_File
  deriving DecidableEq, Repr

/-- The first part of `_native_do_export`, up to the files slice: the type
checks of the arguments and their conversion. -/
def _native_do_export_arguments
    (upload_timeout_milliseconds start_timespec_seconds start_timespec_nanoseconds
      finish_timespec_seconds finish_timespec_nanoseconds pprof_file_name pprof_data
      code_provenance_file_name code_provenance_data : Value) : Run ExportArguments := do
  Check_Type upload_timeout_milliseconds .T_FIXNUM
  Check_Type start_timespec_seconds .T_FIXNUM
  Check_Type start_timespec_nanoseconds .T_FIXNUM
  Check_Type finish_timespec_seconds .T_FIXNUM
  Check_Type finish_timespec_nanoseconds .T_FIXNUM
  Check_Type pprof_file_name .T_STRING
  Check_Type pprof_data .T_STRING
  Check_Type code_provenance_file_name .T_STRING
  let have_code_provenance := !NIL_P code_provenance_data
  if have_code_provenance then Check_Type code_provenance_data .T_STRING
  let timeout_milliseconds ← NUM2ULONG upload_timeout_milliseconds
  let start_seconds ← NUM2LONG start_timespec_seconds
  let start_nanoseconds ← NUM2UINT start_timespec_nanoseconds
  let start : ddprof_ffi_Timespec := ⟨start_seconds, start_nanoseconds⟩
  let finish_seconds ← NUM2LONG finish_timespec_seconds
  let finish_nanoseconds ← NUM2UINT finish_timespec_nanoseconds
  let finish : ddprof_ffi_Timespec := ⟨finish_seconds, finish_nanoseconds⟩
  let pprof_name_slice ← char_slice_from_ruby_string pprof_file_name
  let pprof_data_slice ← byte_slice_from_ruby_string pprof_data
  let files_0 : ddprof_ffi_File := ⟨pprof_name_slice, pprof_data_slice⟩
  if have_code_provenance then
    let code_provenance_name_slice ← char_slice_from_ruby_string code_provenance_file_name
    let code_provenance_data_slice ← byte_slice_from_ruby_string code_provenance_data
    let files_1 : ddprof_ffi_File := ⟨code_provenance_name_slice, code_provenance_data_slice⟩
    pure ⟨timeout_milliseconds, start, finish, [files_0, files_1]⟩
  else
    pure ⟨timeout_milliseconds, start, finish, [files_0]⟩

/-- Continue a computation with one that may have no result, keeping the trace. -/
def Run.andThen {α β : Type} (r : Run α) (k : α → Option (Run β)) : Option (Run β) :=
  match r.result with
  | .ok a => (k a).map (fun r2 => ⟨r.trace ++ r2.trace, r2.result⟩)
  | .error e => some ⟨r.trace, .error e⟩

def _native_do_export (ffi : Libddprof) (host : Host)
    (exporter_configuration upload_timeout_milliseconds start_timespec_seconds
      start_timespec_nanoseconds finish_timespec_seconds finish_timespec_nanoseconds
      pprof_file_name pprof_data code_provenance_file_name code_provenance_data
      tags_as_array : Value) (fuel : Nat) : Option (Run Value) :=
  Run.andThen
    (_native_do_export_arguments upload_timeout_milliseconds start_timespec_seconds
      start_timespec_nanoseconds finish_timespec_seconds finish_timespec_nanoseconds
      pprof_file_name pprof_data code_provenance_file_name code_provenance_data)
    (fun a =>
      Run.andThen (create_exporter ffi host exporter_configuration tags_as_array)
        (fun exporter_result =>
          Run.andThen (handle_exporter_failure exporter_result)
            (fun failure_tuple =>
              if !NIL_P failure_tuple then some (Run.pure failure_tuple)
              else
                perform_export ffi host exporter_result a.start a.finish a.slice_files none
                  a.timeout_milliseconds fuel)))

/-! ## collectors_cpu_and_wall_time.c -/

/-- Modelled from the spec: the `sampling_buffer` of `collectors_stack.h`, which
is not among the sources; a scratch buffer with a capacity in frames. -/
structure sampling_buffer where
  max_frames : Nat
  deriving DecidableEq, Repr

/-- Modelled from the spec: `sampling_buffer_new` of `collectors_stack.c`, which
is not among the sources; it allocates a scratch buffer sized for `max_frames`
entries. -/
def sampling_buffer_new (max_frames : Nat) : sampling_buffer := ⟨max_frames⟩

/-- A numtable of the Ruby VM: entries in insertion order, keys unique. Keys are
thread objects, values the addresses of `per_thread_context` records. -/
abbrev st_table := List (Nat × Nat)

def st_lookup (table : st_table) (key : Nat) : Option Nat :=
  (table.find? (fun entry => entry.1 == key)).map (fun entry => entry.2)

/-- Insert a key, or overwrite the value of a key already present. -/
def st_insert (table : st_table) (key value : Nat) : st_table :=
  if (st_lookup table key).isSome then
    table.map (fun entry => if entry.1 == key then (key, value) else entry)
  else table ++ [(key, value)]

structure cpu_and_wall_time_collector_state where
  sampling_buffer : Option sampling_buffer
  hash_map_per_thread_context : st_table
  recorder_instance : Value

/-- A collector together with the heap it allocates contexts from: `allocated`
counts the records `ruby_xcalloc` has handed out, and the next record gets that
number as its address. -/
structure Collector where
  state : cpu_and_wall_time_collector_state
  allocated : Nat

/-- What `sample_thread` did for one thread. -/
inductive SampleThreadOutcome where
  | recorded
  | skipped
  | raised (e : RbError)
  deriving DecidableEq, Repr

/-- The collaborators of the collector. `is_recorder` is the check behind
`enforce_recorder_instance`, `num2int` is the conversion `NUM2INT` of an
arbitrary Ruby value. `sample_thread` is modelled from the spec: the function of
`collectors_stack.c`, which is not among the sources, walks the stack of the
thread into the buffer and emits the sample to the recorder; whether it
recorded the sample, skipped the emission or raised is a parameter. -/
structure SamplerHost where
  is_recorder : Value → Bool
  num2int : Value → Except RbError Int
  sample_thread : Nat → Option sampling_buffer → Value → List Int → SampleThreadOutcome

/-- What the collector does to the outside, in program order. -/
inductive SamplerEvent where
  | sampling_buffer_new (max_frames : Nat)
  | context_alloc (address : Nat)
  | sample_thread (thread : Nat) (metric_values : List Int) (outcome : SampleThreadOutcome)
  deriving DecidableEq, Repr

/-- A step of the collector: the collector afterwards (also when an exception
was raised), what it did, and how it ended. -/
structure Sampled (α : Type) where
  collector : Collector
  trace : List SamplerEvent
  result : Except RbError α

def _native_new : Collector := ⟨⟨none, [], .nil⟩, 0⟩

def _native_initialize (host : SamplerHost) (collector : Collector)
    (recorder_instance max_frames : Value) : Sampled Value :=
  if !host.is_recorder recorder_instance then ⟨collector, [], .error .typeError⟩
  else
    match host.num2int max_frames with
    | .error e => ⟨collector, [], .error e⟩
    | .ok max_frames_requested =>
      if max_frames_requested < 0 then
        ⟨collector, [], .error (.argError "Invalid max_frames: value must not be negative")⟩
      else
        ⟨{ collector with
            state :=
              { collector.state with
                sampling_buffer := some (sampling_buffer_new max_frames_requested.toNat),
                recorder_instance := recorder_instance } },
          [.sampling_buffer_new max_frames_requested.toNat], .ok .qtrue⟩

def get_or_create_context_for (thread : Nat) (collector : Collector) :
    Nat × Collector × List SamplerEvent :=
  match st_lookup collector.state.hash_map_per_thread_context thread with
  | some value_context => (value_context, collector, [])
  | none =>
    let thread_context := collector.allocated
    (thread_context,
      { state :=
          { collector.state with
            hash_map_per_thread_context :=
              st_insert collector.state.hash_map_per_thread_context thread thread_context },
        allocated := collector.allocated + 1 },
      [.context_alloc thread_context])

/-- Modelled from the spec: the metric columns of `stack_recorder.h`, which is
not among the sources, in the order cpu-time, cpu-samples, wall-time. -/
def ENABLED_VALUE_TYPES_COUNT : Nat := 3
def CPU_TIME_VALUE_POS : Nat := 0
def CPU_SAMPLES_VALUE_POS : Nat := 1
def WALL_TIME_VALUE_POS : Nat := 2

/-- The `for` loop of `sample` over the remaining threads of the enumeration. -/
def sample_loop (host : SamplerHost) : List Nat → Collector → Sampled Unit
  | [], collector => ⟨collector, [], .ok ()⟩
  | thread :: rest, collector =>
    let created := get_or_create_context_for thread collector
    let metric_values :=
      (((List.replicate ENABLED_VALUE_TYPES_COUNT (0 : Int)).set CPU_TIME_VALUE_POS 12).set
        CPU_SAMPLES_VALUE_POS 34).set WALL_TIME_VALUE_POS 56
    let sampled :=
      host.sample_thread thread created.2.1.state.sampling_buffer
        created.2.1.state.recorder_instance metric_values
    match sampled with
    | .raised e =>
      ⟨created.2.1, created.2.2 ++ [.sample_thread thread metric_values sampled], .error e⟩
    | _ =>
      let later := sample_loop host rest created.2.1
      ⟨later.collector,
        created.2.2 ++ [.sample_thread thread metric_values sampled] ++ later.trace,
        later.result⟩

/-- One sampling pass; `threads` is what `ddtrace_thread_list()` returns. -/
def sample (host : SamplerHost) (threads : List Nat) (collector : Collector) : Sampled Unit :=
  sample_loop host threads collector

/-- Successive sampling passes, one per thread enumeration; no result when a
pass raised. -/
def sample_passes (host : SamplerHost) : List (List Nat) → Collector → Option Collector
  | [], collector => some collector
  | threads :: later, collector =>
    match (sample host threads collector).result with
    | .ok _ => sample_passes host later (sample host threads collector).collector
    | .error _ => none

/-- The conversion `NUM2INT` of the Ruby C API (64-bit platform, 32-bit `int`):
an integer outside the range of a C `int` raises a range error, and a value
that has no integer conversion raises a type error. -/
def NUM2INT : Value → Except RbError Int
  | .int n =>
    if n < -(2 : Int) ^ 31 ∨ (2 : Int) ^ 31 ≤ n then .error .rangeError else .ok n
  | _ => .error .typeError

/-! ## Statements read off the specification -/

/-- The argument error of `endpoint_from`. -/
def unexpected_working_mode : RbError :=
  .argError "Failed to initialize transport: Unexpected working mode, expected :agentless or :agent"

/-- The direct configuration of the specification: the direct-mode symbol, a
site and an API key, and nothing else. -/
def direct_shape (c : Value) : Prop :=
  ∃ site api_key : String, c = .ary [.sym agentless_id, .str site, .str api_key]

/-- The via-agent configuration of the specification: the agent-mode symbol and
a base URL, and nothing else. -/
def via_agent_shape (c : Value) : Prop :=
  ∃ base_url : String, c = .ary [.sym agent_id, .str base_url]

/-- The Ruby array of `[name, value]` pairs for a list of string pairs. -/
def tags_array (pairs : List (String × String)) : Value :=
  .ary (pairs.map (fun p => .ary [.str p.1, .str p.2]))

/-- The pairs that the foreign push accepts, in input order. -/
def accepted_pairs (ffi : Libddprof) (pairs : List (String × String)) : List (String × String) :=
  pairs.filter (fun p => (ffi.tag_error p.1 p.2).isNone)

/-- The error messages of the foreign push for the rejected pairs, in input order. -/
def rejection_messages (ffi : Libddprof) (pairs : List (String × String)) : List String :=
  pairs.filterMap (fun p => ffi.tag_error p.1 p.2)

/-- The messages the logging callback was called with, in order. -/
def logged (trace : List Event) : List String :=
  trace.filterMap (fun e =>
    match e with
    | .log_failure_to_process_tag err_details => some err_details
    | _ => none)

/-- The events of pushing one tag: they construct and release nothing that
outlives the push. -/
def is_tag_event : Event → Bool
  | .Vec_tag_push _ _ => true
  | .PushTagResult_drop => true
  | .log_failure_to_process_tag _ => true
  | _ => false

/-- The foreign resources with an exactly-once release contract. -/
inductive Resource where
  | TagVector | ExporterResult | CancellationToken | SendResult
  deriving DecidableEq, Repr

/-- The resource an event constructs, if any. -/
def Event.constructs : Event → Option Resource
  | .Vec_tag_new => some .TagVector
  | .ProfileExporterV3_new _ _ => some .ExporterResult
  | .CancellationToken_new => some .CancellationToken
  | .ProfileExporterV3_send _ _ => some .SendResult
  | _ => none

/-- The resource an event releases, if any. -/
def Event.releases : Event → Option Resource
  | .Vec_tag_drop => some .TagVector
  | .NewProfileExporterV3Result_drop => some .ExporterResult
  | .CancellationToken_drop => some .CancellationToken
  | .SendResult_drop => some .SendResult
  | _ => none

/-- Where a resource stands: not constructed, constructed and not yet released,
released once, or misused (constructed again, released while not live). -/
inductive Lifecycle where
  | absent | live | released | broken
  deriving DecidableEq, Repr

def Lifecycle.step (res : Resource) (s : Lifecycle) (e : Event) : Lifecycle :=
  if e.constructs = some res then
    match s with
    | .absent => .live
    | _ => .broken
  else if e.releases = some res then
    match s with
    | .live => .released
    | _ => .broken
  else s

/-- Where a resource stands after a trace. -/
def lifecycle (res : Resource) (trace : List Event) : Lifecycle :=
  trace.foldl (Lifecycle.step res) .absent

/-- Every resource constructed in the trace was released exactly once, after
its construction: it is never left live, never released twice and never
released without being live. -/
def released_exactly_once (trace : List Event) : Prop :=
  ∀ res, lifecycle res trace = .absent ∨ lifecycle res trace = .released

/-- The key set of the per-thread context map, in insertion order. -/
def per_thread_keys (collector : Collector) : List Nat :=
  collector.state.hash_map_per_thread_context.map Prod.fst

/-- A tags element that passes the structure checks of `convert_tags`: an array
whose entries 0 and 1 are strings. -/
def well_formed_tag (v : Value) : Prop :=
  rb_type v = .T_ARRAY ∧ rb_type (rb_ary_entry v 0) = .T_STRING ∧
    rb_type (rb_ary_entry v 1) = .T_STRING

/-- The calls of the foreign send in a trace, in order: the request sent and
whether the token was cancelled. -/
def sends (trace : List Event) : List (ddprof_ffi_Request × Bool) :=
  trace.filterMap (fun e =>
    match e with
    | .ProfileExporterV3_send request cancelled => some (request, cancelled)
    | _ => none)

/-- Modelled from the spec: `sample_thread` of `collectors_stack.c`, which is
not among the sources. The stack walker fills the scratch buffer from the
thread; if stack-walking fails for the thread its emission is skipped,
otherwise the sample is emitted to the recorder. It returns in both cases. -/
def spec_sample_thread (stack_walk_fails : Nat → Bool) (thread : Nat)
    (_buffer : Option sampling_buffer) (_recorder_instance : Value)
    (_metric_values : List Int) : SampleThreadOutcome :=
  if stack_walk_fails thread then .skipped else .recorded

/-- The threads `sample_thread` was called for, in order. -/
def attempted (trace : List SamplerEvent) : List Nat :=
  trace.filterMap (fun e =>
    match e with
    | .sample_thread thread _ _ => some thread
    | _ => none)

/-- The threads whose sample was emitted to the recorder, in order. -/
def emitted (trace : List SamplerEvent) : List Nat :=
  trace.filterMap (fun e =>
    match e with
    | .sample_thread thread _ .recorded => some thread
    | _ => none)

/-! ## Worked inputs -/

/-- A libddprof that rejects tags with an empty name, rejects the site
`"bad"`, and answers a send with HTTP 202 unless it was cancelled. -/
def sample_libddprof : Libddprof where
  tag_error := fun name _ => if name = "" then some "tag key was empty" else none
  exporter_error := fun _ _ endpoint =>
    if endpoint = .agentless "bad" "k" then some "bad site" else none
  send := fun _ cancelled => if cancelled then .failure "cancelled" else .http_response 202

/-- A host whose logging callback returns and which runs the send at once. -/
def quiet_host : Host where
  log_raises := fun _ _ => 0
  without_gvl := fun _ => .ran false 0

/-- A host that returns twice before running the send on the third call. -/
def retrying_host : Host where
  log_raises := fun _ _ => 0
  without_gvl := fun i => if i < 2 then .not_run 0 else .ran false 0

/-- A host that interrupts the running send: the unblocking function is called
and exception 7 is pending when the call is back. -/
def interrupting_host : Host where
  log_raises := fun _ _ => 0
  without_gvl := fun _ => .ran true 7

/-- A host with exception 7 pending before the send could start. -/
def pending_host : Host where
  log_raises := fun _ _ => 0
  without_gvl := fun _ => .not_run 7

/-- A host whose logging callback raises exception 6. -/
def raising_log_host : Host where
  log_raises := fun _ _ => 6
  without_gvl := fun _ => .ran false 0

def sample_exporter : ddprof_ffi_ProfileExporterV3 :=
  ⟨"ruby", [("service", "demo")], .agent "http://127.0.0.1:8126"⟩

def sample_start : ddprof_ffi_Timespec := ⟨1700000000, 0⟩
def sample_finish : ddprof_ffi_Timespec := ⟨1700000060, 0⟩
def sample_files : List ddprof_ffi_File := [⟨"profile.pprof", "<binary>"⟩]

def sample_request : ddprof_ffi_Request :=
  ⟨sample_exporter, sample_start, sample_finish, sample_files, none, 10000⟩

def sample_configuration : Value := .ary [.sym "agent", .str "http://127.0.0.1:8126"]
def rejected_configuration : Value := .ary [.sym "agentless", .str "bad", .str "k"]
def sample_tags : Value := .ary [.ary [.str "service", .str "demo"]]
def rejected_tags : Value := .ary [.ary [.str "", .str ""]]

/-- The `code_provenance_data` argument: `nil` when code provenance is disabled. -/
def provenance_value : Option String → Value
  | none => .nil
  | some data => .str data

/-- The request of an upload of `sample_files` followed by a code provenance file. -/
def provenance_request : ddprof_ffi_Request :=
  ⟨sample_exporter, sample_start, sample_finish,
    [⟨"profile.pprof", "<binary>"⟩, ⟨"code-provenance.json", "<json>"⟩], none, 10000⟩

/-- Collaborators that take object 1 for the recorder, convert integers with
`NUM2INT`, and record every sample. -/
def sample_sampler_host : SamplerHost where
  is_recorder := fun v =>
    match v with
    | .obj 1 => true
    | _ => false
  num2int := NUM2INT
  sample_thread := fun _ _ _ _ => .recorded

/-- The collector after sampling the enumerations `[1, 2]`, `[2, 3]` and `[1]`
from a fresh one. -/
def sampled_collector : Collector := ⟨⟨none, [(1, 0), (2, 1), (3, 2)], .nil⟩, 3⟩

/-- Collaborators for which stack-walking fails for thread 2 only. -/
def skipping_sampler_host : SamplerHost where
  is_recorder := fun _ => true
  num2int := NUM2INT
  sample_thread := spec_sample_thread (fun thread => thread == 2)

/-! ## Type checks and endpoint construction -/

theorem Check_Type_pass (v : Value) (t : RubyType) (h : rb_type v = t) :
    Check_Type v t = ⟨[], .ok ()⟩ := by
  simp [Check_Type, RB_TYPE_P, h, Run.pure]

theorem Check_Type_fail (v : Value) (t : RubyType) (h : rb_type v ≠ t) :
    Check_Type v t = ⟨[], .error .typeError⟩ := by
  simp [Check_Type, RB_TYPE_P, h, raise]

theorem rb_type_string_iff (v : Value) : rb_type v = .T_STRING ↔ ∃ s, v = .str s := by
  cases v <;> simp [rb_type]
  split <;> simp

theorem rb_type_array_iff (v : Value) : rb_type v = .T_ARRAY ↔ ∃ elems, v = .ary elems := by
  cases v <;> simp [rb_type]
  split <;> simp

theorem char_slice_of_string (v : Value) (h : rb_type v = .T_STRING) :
    char_slice_from_ruby_string v = ⟨[], .ok (string_content v)⟩ := by
  simp [char_slice_from_ruby_string, Check_Type_pass v _ h, bind, Run.bind, pure, Run.pure]

theorem byte_slice_of_string (v : Value) (h : rb_type v = .T_STRING) :
    byte_slice_from_ruby_string v = ⟨[], .ok (string_content v)⟩ := by
  simp [byte_slice_from_ruby_string, Check_Type_pass v _ h, bind, Run.bind, pure, Run.pure]

theorem endpoint_from_not_array (c : Value) (h : rb_type c ≠ .T_ARRAY) :
    endpoint_from c = ⟨[], .error .typeError⟩ := by
  simp [endpoint_from, Check_Type_fail c _ h, bind, Run.bind]

theorem endpoint_from_not_symbol (c : Value) (h : rb_type c = .T_ARRAY)
    (h0 : ∀ id, rb_ary_entry c 0 ≠ .sym id) : endpoint_from c = ⟨[], .error .typeError⟩ := by
  unfold endpoint_from
  rw [Check_Type_pass c _ h]
  generalize rb_ary_entry c 0 = e0 at h0
  cases e0 <;> first | rfl | exact absurd rfl (h0 _)

theorem endpoint_from_symbol (c : Value) (id : String) (h : rb_type c = .T_ARRAY)
    (h0 : rb_ary_entry c 0 = .sym id) :
    endpoint_from c =
      if id = agentless_id then
        if rb_type (rb_ary_entry c 1) = .T_STRING ∧ rb_type (rb_ary_entry c 2) = .T_STRING then
          ⟨[], .ok (.agentless (string_content (rb_ary_entry c 1))
            (string_content (rb_ary_entry c 2)))⟩
        else ⟨[], .error .typeError⟩
      else if id = agent_id then
        if rb_type (rb_ary_entry c 1) = .T_STRING then
          ⟨[], .ok (.agent (string_content (rb_ary_entry c 1)))⟩
        else ⟨[], .error .typeError⟩
      else ⟨[], .error unexpected_working_mode⟩ := by
  unfold endpoint_from
  rw [Check_Type_pass c _ h, h0]
  by_cases ha : id = agentless_id
  · subst ha
    by_cases h1 : rb_type (rb_ary_entry c 1) = .T_STRING
    · by_cases h2 : rb_type (rb_ary_entry c 2) = .T_STRING
      · simp [h1, h2, Check_Type_pass, char_slice_of_string, bind, Run.bind, pure, Run.pure, SYM2ID,
          agentless_id, agent_id]
      · simp [h1, h2, Check_Type_pass, Check_Type_fail, bind, Run.bind, pure, Run.pure, SYM2ID,
          agentless_id, agent_id]
    · simp [h1, Check_Type_fail, bind, Run.bind, pure, Run.pure, SYM2ID, agentless_id, agent_id]
  · by_cases hb : id = agent_id
    · subst hb
      by_cases h1 : rb_type (rb_ary_entry c 1) = .T_STRING
      · simp [h1, Check_Type_pass, char_slice_of_string, bind, Run.bind, pure, Run.pure, SYM2ID,
          agentless_id, agent_id]
      · simp [h1, Check_Type_fail, bind, Run.bind, pure, Run.pure, SYM2ID, agentless_id, agent_id]
    · simp [ha, hb, unexpected_working_mode, bind, Run.bind, SYM2ID, Run.pure, raise]

theorem agent_ne_agentless : agent_id ≠ agentless_id := by decide

theorem entry_string_iff (e0 : Value) (rest : List Value) :
    rb_type (rb_ary_entry (.ary (e0 :: rest)) 1) = .T_STRING ↔
      ∃ s rest2, rest = .str s :: rest2 := by
  rw [rb_type_string_iff]
  cases rest with
  | nil => simp [rb_ary_entry]
  | cons e1 rest2 => simp [rb_ary_entry]

theorem entry_string_iff2 (e0 e1 : Value) (rest : List Value) :
    rb_type (rb_ary_entry (.ary (e0 :: e1 :: rest)) 2) = .T_STRING ↔
      ∃ s rest2, rest = .str s :: rest2 := by
  rw [rb_type_string_iff]
  cases rest with
  | nil => simp [rb_ary_entry]
  | cons e2 rest2 => simp [rb_ary_entry]

/-- C2, refuted as stated: a via-agent configuration with an extra trailing
element is neither of the two shapes of the specification, and `endpoint_from`
builds the agent endpoint from it all the same. -/
theorem endpoint_from_accepts_trailing_element :
    (endpoint_from (.ary [.sym agent_id, .str "http://127.0.0.1:8126", .int 42])).result =
        .ok (.agent "http://127.0.0.1:8126") ∧
      ¬ direct_shape (.ary [.sym agent_id, .str "http://127.0.0.1:8126", .int 42]) ∧
      ¬ via_agent_shape (.ary [.sym agent_id, .str "http://127.0.0.1:8126", .int 42]) := by
  refine ⟨rfl, ?_, ?_⟩
  · simp [direct_shape]
  · simp [via_agent_shape]

/-- C2, amended: `endpoint_from` succeeds exactly when the configuration is an
array that starts with the agentless symbol followed by two strings, or with the
agent symbol followed by one string, whatever follows them; it builds the
endpoint from those strings. It raises the argument error exactly when the
array starts with a symbol other than the two modes, and a type error in every
remaining case. It makes no foreign call. -/
theorem endpoint_from_succeeds_iff_leading_shape (c : Value) :
    (∀ endpoint, (endpoint_from c).result = .ok endpoint ↔
        ((∃ site api_key rest,
            c = .ary (.sym agentless_id :: .str site :: .str api_key :: rest) ∧
              endpoint = .agentless site api_key) ∨
          (∃ base_url rest,
            c = .ary (.sym agent_id :: .str base_url :: rest) ∧ endpoint = .agent base_url))) ∧
      ((endpoint_from c).result = .error unexpected_working_mode ↔
        ∃ id rest, c = .ary (.sym id :: rest) ∧ id ≠ agentless_id ∧ id ≠ agent_id) ∧
      (∀ e, (endpoint_from c).result = .error e → e = unexpected_working_mode ∨ e = .typeError) ∧
      (endpoint_from c).trace = [] := by
  by_cases hc : rb_type c = .T_ARRAY
  · obtain ⟨elems, rfl⟩ := (rb_type_array_iff c).1 hc
    by_cases h0 : ∃ id, rb_ary_entry (.ary elems) 0 = .sym id
    · obtain ⟨id, h0⟩ := h0
      have hel : ∃ rest, elems = .sym id :: rest := by
        cases elems with
        | nil => simp [rb_ary_entry] at h0
        | cons e0 rest => exact ⟨rest, by simpa [rb_ary_entry] using h0⟩
      obtain ⟨rest, rfl⟩ := hel
      rw [endpoint_from_symbol _ id hc h0]
      by_cases ha : id = agentless_id
      · subst ha
        rw [if_pos rfl]
        by_cases h1 : rb_type (rb_ary_entry (.ary (.sym agentless_id :: rest)) 1) = .T_STRING
        · obtain ⟨site, rest2, rfl⟩ := (entry_string_iff _ _).1 h1
          by_cases h2 : rb_type (rb_ary_entry
              (.ary (.sym agentless_id :: .str site :: rest2)) 2) = .T_STRING
          · obtain ⟨api_key, rest3, rfl⟩ := (entry_string_iff2 _ _ _).1 h2
            rw [if_pos ⟨h1, h2⟩]
            simp [rb_ary_entry, string_content, unexpected_working_mode, agent_ne_agentless,
              agent_ne_agentless.symm, eq_comm]
            aesop
          · rw [if_neg (fun h => h2 h.2)]
            rw [entry_string_iff2] at h2
            simp [unexpected_working_mode, agent_ne_agentless, agent_ne_agentless.symm]
            aesop
        · rw [if_neg (fun h => h1 h.1)]
          rw [entry_string_iff] at h1
          simp [unexpected_working_mode, agent_ne_agentless, agent_ne_agentless.symm]
          aesop
      · rw [if_neg ha]
        by_cases hb : id = agent_id
        · subst hb
          rw [if_pos rfl]
          by_cases h1 : rb_type (rb_ary_entry (.ary (.sym agent_id :: rest)) 1) = .T_STRING
          · obtain ⟨base_url, rest2, rfl⟩ := (entry_string_iff _ _).1 h1
            rw [if_pos h1]
            simp [rb_ary_entry, string_content, unexpected_working_mode, agent_ne_agentless,
              agent_ne_agentless.symm, eq_comm]
          · rw [if_neg h1]
            rw [entry_string_iff] at h1
            simp [unexpected_working_mode, agent_ne_agentless, agent_ne_agentless.symm]
            aesop
        · rw [if_neg hb]
          simp [ha, hb]
    · have h0b : ∀ id, rb_ary_entry (.ary elems) 0 ≠ .sym id := fun id h => h0 ⟨id, h⟩
      rw [endpoint_from_not_symbol _ hc h0b]
      have h0c : ∀ id rest, elems ≠ .sym id :: rest := by
        intro id rest h
        subst h
        exact h0 ⟨id, rfl⟩
      simp [unexpected_working_mode, h0c]
  · rw [endpoint_from_not_array c hc]
    have hc2 : ∀ elems, c ≠ .ary elems := by
      intro elems h
      subst h
      exact hc rfl
    simp [unexpected_working_mode, hc2]

/-! ## The retry loop of `perform_export` -/

theorem perform_export_loop_done (ffi : Libddprof) (host : Host) (fuel i : Nat) (s : ExportLoop)
    (h : (!s.args.send_ran && s.pending_exception == 0) = false) :
    perform_export_loop ffi host fuel i s = some ([], s) := by
  cases fuel <;> simp [perform_export_loop, h]

theorem perform_export_loop_skip (ffi : Libddprof) (host : Host) (k : Nat) :
    ∀ (fuel i : Nat) (s : ExportLoop), s.args.send_ran = false → s.pending_exception = 0 →
      (∀ j, j < k → host.without_gvl (i + j) = .not_run 0) →
      perform_export_loop ffi host (fuel + k) i s = perform_export_loop ffi host fuel (i + k) s := by
  induction k with
  | zero => intro fuel i s _ _ _; rfl
  | succ k ih =>
    intro fuel i s hran hpend hskip
    have h0 : host.without_gvl i = .not_run 0 := by simpa using hskip 0 (Nat.succ_pos k)
    have hs : ({ s with pending_exception := 0 } : ExportLoop) = s := by
      cases s; simp_all
    have hstep : perform_export_loop ffi host (fuel + k + 1) i s =
        perform_export_loop ffi host (fuel + k) (i + 1) s := by
      simp [perform_export_loop, hran, hpend, h0, hs]
    rw [← Nat.add_assoc, hstep, ih fuel (i + 1) s hran hpend]
    · rw [Nat.add_assoc, Nat.add_comm 1 k]
    · intro j hj
      have := hskip (j + 1) (Nat.succ_lt_succ hj)
      rwa [Nat.add_assoc, Nat.add_comm 1 j]

theorem perform_export_loop_ran (ffi : Libddprof) (host : Host) (fuel i : Nat) (s : ExportLoop)
    (ubf : Bool) (pending : Nat) (hran : s.args.send_ran = false) (hpend : s.pending_exception = 0)
    (h : host.without_gvl i = .ran ubf pending) :
    perform_export_loop ffi host (fuel + 1) i s =
      some ((if ubf then [Event.CancellationToken_cancel] else []) ++
          [Event.ProfileExporterV3_send s.args.request (s.cancelled || ubf)],
        { args := { s.args with
            result := some (ffi.send s.args.request (s.cancelled || ubf)), send_ran := true },
          cancelled := s.cancelled || ubf,
          pending_exception := 0 }) := by
  cases ubf <;>
    simp [perform_export_loop, hran, hpend, h, call_exporter_without_gvl, interrupt_exporter_call,
      perform_export_loop_done]

theorem perform_export_loop_pending (ffi : Libddprof) (host : Host) (fuel i : Nat) (s : ExportLoop)
    (pending : Nat) (hran : s.args.send_ran = false) (hpend : s.pending_exception = 0)
    (h : host.without_gvl i = .not_run pending) (hp : pending ≠ 0) :
    perform_export_loop ffi host (fuel + 1) i s =
      some ([], { s with pending_exception := pending }) := by
  simp [perform_export_loop, hran, hpend, h, perform_export_loop_done, hp]

/-- The result tuple that `perform_export` builds from a send result. -/
theorem perform_export_when_send_ran (ffi : Libddprof) (host : Host)
    (exporter : ddprof_ffi_ProfileExporterV3) (start finish : ddprof_ffi_Timespec)
    (slice_files : List ddprof_ffi_File) (additional_tags : Option ddprof_ffi_Vec_tag)
    (timeout_milliseconds k fuel : Nat) (ubf : Bool) (pending : Nat)
    (hskip : ∀ j, j < k → host.without_gvl j = .not_run 0)
    (hran : host.without_gvl k = .ran ubf pending) (hfuel : k < fuel) :
    perform_export ffi host (.ok exporter) start finish slice_files additional_tags
        timeout_milliseconds fuel =
      some ⟨[.CancellationToken_new,
            .ProfileExporterV3_build
              ⟨exporter, start, finish, slice_files, additional_tags, timeout_milliseconds⟩] ++
          (if ubf then [Event.CancellationToken_cancel] else []) ++
          [.ProfileExporterV3_send
              ⟨exporter, start, finish, slice_files, additional_tags, timeout_milliseconds⟩ ubf,
            .SendResult_drop, .CancellationToken_drop, .NewProfileExporterV3Result_drop],
        .ok (match ffi.send
              ⟨exporter, start, finish, slice_files, additional_tags, timeout_milliseconds⟩ ubf with
          | .http_response code => .ary [ok_symbol, .int code]
          | .failure details => .ary [error_symbol, ruby_string_from_vec_u8 details])⟩ := by
  obtain ⟨d, rfl⟩ : ∃ d, fuel = d + 1 + k := ⟨fuel - k - 1, by omega⟩
  unfold perform_export
  simp only []
  rw [perform_export_loop_skip ffi host k (d + 1) 0 _ rfl rfl (by simpa using hskip)]
  rw [perform_export_loop_ran ffi host d (0 + k) _ ubf pending rfl rfl (by simpa using hran)]
  simp only [Bool.false_or]
  cases hsend : ffi.send
      ⟨exporter, start, finish, slice_files, additional_tags, timeout_milliseconds⟩ ubf <;>
    simp [hsend]

theorem perform_export_when_pending (ffi : Libddprof) (host : Host)
    (exporter : ddprof_ffi_ProfileExporterV3) (start finish : ddprof_ffi_Timespec)
    (slice_files : List ddprof_ffi_File) (additional_tags : Option ddprof_ffi_Vec_tag)
    (timeout_milliseconds k fuel : Nat) (pending : Nat)
    (hskip : ∀ j, j < k → host.without_gvl j = .not_run 0)
    (hnot : host.without_gvl k = .not_run pending) (hp : pending ≠ 0) (hfuel : k < fuel) :
    perform_export ffi host (.ok exporter) start finish slice_files additional_tags
        timeout_milliseconds fuel =
      some ⟨[.CancellationToken_new,
            .ProfileExporterV3_build
              ⟨exporter, start, finish, slice_files, additional_tags, timeout_milliseconds⟩,
            .CancellationToken_cancel,
            .ProfileExporterV3_send
              ⟨exporter, start, finish, slice_files, additional_tags, timeout_milliseconds⟩ true,
            .SendResult_drop, .CancellationToken_drop, .NewProfileExporterV3Result_drop],
        .error (.jump pending)⟩ := by
  obtain ⟨d, rfl⟩ : ∃ d, fuel = d + 1 + k := ⟨fuel - k - 1, by omega⟩
  unfold perform_export
  simp only []
  rw [perform_export_loop_skip ffi host k (d + 1) 0 _ rfl rfl (by simpa using hskip)]
  rw [perform_export_loop_pending ffi host d (0 + k) _ pending rfl rfl (by simpa using hnot) hp]
  simp [hp, call_exporter_without_gvl, interrupt_exporter_call]

/-- C1: for a valid exporter result, when no exception is pending (every call
that returned early found none, and none is pending when the send is back),
`perform_export` returns `(ok, code)` if the send answered with the HTTP status
`code`, and `(error, m)` with the failure bytes as a string otherwise. Any fuel
beyond the number of early returns gives the result. -/
theorem perform_export_classifies_send_result (ffi : Libddprof) (host : Host)
    (exporter : ddprof_ffi_ProfileExporterV3) (start finish : ddprof_ffi_Timespec)
    (slice_files : List ddprof_ffi_File) (additional_tags : Option ddprof_ffi_Vec_tag)
    (timeout_milliseconds k fuel : Nat) (ubf : Bool) (r : ddprof_ffi_SendResult)
    (hskip : ∀ j, j < k → host.without_gvl j = .not_run 0)
    (hran : host.without_gvl k = .ran ubf 0) (hfuel : k < fuel)
    (hsend : ffi.send
      ⟨exporter, start, finish, slice_files, additional_tags, timeout_milliseconds⟩ ubf = r) :
    (∀ code, r = .http_response code →
        Option.map Run.result
            (perform_export ffi host (.ok exporter) start finish slice_files additional_tags
              timeout_milliseconds fuel) =
          some (.ok (.ary [ok_symbol, .int code]))) ∧
      (∀ m, r = .failure m →
        Option.map Run.result
            (perform_export ffi host (.ok exporter) start finish slice_files additional_tags
              timeout_milliseconds fuel) =
          some (.ok (.ary [error_symbol, ruby_string_from_vec_u8 m]))) := by
  rw [perform_export_when_send_ran ffi host exporter start finish slice_files additional_tags
    timeout_milliseconds k fuel ubf 0 hskip hran hfuel, hsend]
  constructor
  · intro code hr
    subst hr
    rfl
  · intro m hr
    subst hr
    rfl

theorem perform_export_classifies_send_result_witness :
    Option.map Run.result
        (perform_export sample_libddprof retrying_host (.ok sample_exporter) sample_start
          sample_finish sample_files none 10000 3) =
      some (.ok (.ary [ok_symbol, .int 202])) :=
  (perform_export_classifies_send_result sample_libddprof retrying_host sample_exporter
    sample_start sample_finish sample_files none 10000 2 3 false (.http_response 202)
    (by decide) rfl (by decide) rfl).1 202 rfl

/-- C5, refuted as stated: the send callback ran, the unblocking function
cancelled it, and exception 7 is pending when the call is back; `perform_export`
does not look at the pending exception then and returns the error tuple of the
cancelled send. -/
theorem perform_export_returns_tuple_after_interrupted_send :
    interrupting_host.without_gvl 0 = .ran true 7 ∧
      Option.map Run.result
          (perform_export sample_libddprof interrupting_host (.ok sample_exporter) sample_start
            sample_finish sample_files none 10000 1) =
        some (.ok (.ary [error_symbol, .str "cancelled"])) :=
  ⟨rfl, rfl⟩

/-- C5, amended: after any number of early returns without a pending exception,
(1) if the next call returns without running the send and an exception is
pending, `perform_export` cancels the token, runs the send once, releases the
send result, the cancellation token and the exporter result, and re-raises the
exception, so no tuple is returned; (2) if the next call runs the send,
whatever is pending when it is back, `perform_export` releases the same three
and returns the tuple of the send result. -/
theorem perform_export_reraises_only_when_send_not_run (ffi : Libddprof) (host : Host)
    (exporter : ddprof_ffi_ProfileExporterV3) (start finish : ddprof_ffi_Timespec)
    (slice_files : List ddprof_ffi_File) (additional_tags : Option ddprof_ffi_Vec_tag)
    (timeout_milliseconds k fuel : Nat)
    (hskip : ∀ j, j < k → host.without_gvl j = .not_run 0) (hfuel : k < fuel) :
    (∀ pending, host.without_gvl k = .not_run pending → pending ≠ 0 →
        perform_export ffi host (.ok exporter) start finish slice_files additional_tags
            timeout_milliseconds fuel =
          some ⟨[.CancellationToken_new,
              .ProfileExporterV3_build
                ⟨exporter, start, finish, slice_files, additional_tags, timeout_milliseconds⟩,
              .CancellationToken_cancel,
              .ProfileExporterV3_send
                ⟨exporter, start, finish, slice_files, additional_tags, timeout_milliseconds⟩
                true,
              .SendResult_drop, .CancellationToken_drop, .NewProfileExporterV3Result_drop],
            .error (.jump pending)⟩) ∧
      (∀ ubf pending, host.without_gvl k = .ran ubf pending →
        perform_export ffi host (.ok exporter) start finish slice_files additional_tags
            timeout_milliseconds fuel =
          some ⟨[.CancellationToken_new,
                .ProfileExporterV3_build
                  ⟨exporter, start, finish, slice_files, additional_tags,
                    timeout_milliseconds⟩] ++
              (if ubf then [Event.CancellationToken_cancel] else []) ++
              [.ProfileExporterV3_send
                  ⟨exporter, start, finish, slice_files, additional_tags, timeout_milliseconds⟩
                  ubf,
                .SendResult_drop, .CancellationToken_drop, .NewProfileExporterV3Result_drop],
            .ok (match ffi.send
                ⟨exporter, start, finish, slice_files, additional_tags, timeout_milliseconds⟩
                ubf with
              | .http_response code => .ary [ok_symbol, .int code]
              | .failure details => .ary [error_symbol, ruby_string_from_vec_u8 details])⟩) := by
  constructor
  · intro pending hnot hp
    exact perform_export_when_pending ffi host exporter start finish slice_files additional_tags
      timeout_milliseconds k fuel pending hskip hnot hp hfuel
  · intro ubf pending hran
    exact perform_export_when_send_ran ffi host exporter start finish slice_files
      additional_tags timeout_milliseconds k fuel ubf pending hskip hran hfuel

theorem perform_export_reraises_only_when_send_not_run_witness :
    perform_export sample_libddprof pending_host (.ok sample_exporter) sample_start
        sample_finish sample_files none 10000 1 =
      some ⟨[.CancellationToken_new, .ProfileExporterV3_build sample_request,
          .CancellationToken_cancel, .ProfileExporterV3_send sample_request true,
          .SendResult_drop, .CancellationToken_drop, .NewProfileExporterV3Result_drop],
        .error (.jump 7)⟩ :=
  (perform_export_reraises_only_when_send_not_run sample_libddprof pending_host sample_exporter
    sample_start sample_finish sample_files none 10000 0 1 (by decide) (by decide)).1 7 rfl
    (by decide)

/-! ## Tag conversion -/

theorem string_content_str (s : String) : string_content (.str s) = s := rfl

/-- One iteration of the loop of `convert_tags`, case by case. -/
theorem convert_tags_loop_cons (ffi : Libddprof) (host : Host) (name_value_pair : Value)
    (rest : List Value) (i : Nat) (tags : ddprof_ffi_Vec_tag) :
    convert_tags_loop ffi host (name_value_pair :: rest) i tags =
      if rb_type name_value_pair = .T_ARRAY ∧
          rb_type (rb_ary_entry name_value_pair 0) = .T_STRING ∧
          rb_type (rb_ary_entry name_value_pair 1) = .T_STRING then
        match ffi.tag_error (string_content (rb_ary_entry name_value_pair 0))
            (string_content (rb_ary_entry name_value_pair 1)) with
        | some err =>
          if host.log_raises i err ≠ 0 then
            ⟨[.Vec_tag_push (string_content (rb_ary_entry name_value_pair 0))
                (string_content (rb_ary_entry name_value_pair 1)),
              .PushTagResult_drop, .log_failure_to_process_tag err, .Vec_tag_drop],
              .error (.jump (host.log_raises i err))⟩
          else
            ⟨[.Vec_tag_push (string_content (rb_ary_entry name_value_pair 0))
                (string_content (rb_ary_entry name_value_pair 1)),
              .PushTagResult_drop, .log_failure_to_process_tag err] ++
                (convert_tags_loop ffi host rest (i + 1) tags).trace,
              (convert_tags_loop ffi host rest (i + 1) tags).result⟩
        | none =>
          ⟨[.Vec_tag_push (string_content (rb_ary_entry name_value_pair 0))
              (string_content (rb_ary_entry name_value_pair 1)),
            .PushTagResult_drop] ++
              (convert_tags_loop ffi host rest (i + 1)
                (tags ++ [(string_content (rb_ary_entry name_value_pair 0),
                  string_content (rb_ary_entry name_value_pair 1))])).trace,
            (convert_tags_loop ffi host rest (i + 1)
              (tags ++ [(string_content (rb_ary_entry name_value_pair 0),
                string_content (rb_ary_entry name_value_pair 1))])).result⟩
      else ⟨[.Vec_tag_drop], .error .typeError⟩ := by
  rw [convert_tags_loop]
  by_cases hc : rb_type name_value_pair = .T_ARRAY ∧
      rb_type (rb_ary_entry name_value_pair 0) = .T_STRING ∧
      rb_type (rb_ary_entry name_value_pair 1) = .T_STRING
  · rw [if_pos hc]
    obtain ⟨ha, h0, h1⟩ := hc
    cases herr : ffi.tag_error (string_content (rb_ary_entry name_value_pair 0))
        (string_content (rb_ary_entry name_value_pair 1)) with
    | none =>
      simp [RB_TYPE_P, ha, h0, h1, char_slice_of_string, bind, Run.bind, pure, Run.pure, emit,
        herr]
    | some err =>
      by_cases hl : host.log_raises i err = 0
      · simp [RB_TYPE_P, ha, h0, h1, char_slice_of_string, bind, Run.bind, pure, Run.pure,
          emit, herr, safely_log_failure_to_process_tag, ruby_string_from_vec_u8,
          string_content_str, hl]
      · simp [RB_TYPE_P, ha, h0, h1, char_slice_of_string, bind, Run.bind, pure, Run.pure,
          emit, herr, safely_log_failure_to_process_tag, ruby_string_from_vec_u8,
          string_content_str, hl, raise]
  · rw [if_neg hc]
    by_cases ha : rb_type name_value_pair = .T_ARRAY
    · by_cases h0 : rb_type (rb_ary_entry name_value_pair 0) = .T_STRING
      · have h1 : rb_type (rb_ary_entry name_value_pair 1) ≠ .T_STRING := fun h => hc ⟨ha, h0, h⟩
        simp [RB_TYPE_P, ha, h0, h1, Check_Type_pass, Check_Type_fail, bind, Run.bind, pure,
          Run.pure, emit]
      · simp [RB_TYPE_P, ha, h0, Check_Type_fail, bind, Run.bind, pure, Run.pure, emit]
    · simp [RB_TYPE_P, ha, Check_Type_fail, bind, Run.bind, pure, Run.pure, emit]

/-- The trace of the loop of `convert_tags`: events of single pushes, followed
by the release of the tag vector exactly when the loop raises. -/
theorem convert_tags_loop_shape (ffi : Libddprof) (host : Host) (elems : List Value) :
    ∀ (i : Nat) (tags : ddprof_ffi_Vec_tag),
      ∃ pushes, (∀ e ∈ pushes, is_tag_event e = true) ∧
        ((∃ v, (convert_tags_loop ffi host elems i tags).result = .ok v ∧
            (convert_tags_loop ffi host elems i tags).trace = pushes) ∨
          (∃ e, (convert_tags_loop ffi host elems i tags).result = .error e ∧
            (convert_tags_loop ffi host elems i tags).trace = pushes ++ [.Vec_tag_drop])) := by
  induction elems with
  | nil =>
    intro i tags
    exact ⟨[], by simp, Or.inl ⟨tags, rfl, rfl⟩⟩
  | cons name_value_pair rest ih =>
    intro i tags
    rw [convert_tags_loop_cons]
    split
    · split
      · rename_i err _
        split
        · exact ⟨[.Vec_tag_push (string_content (rb_ary_entry name_value_pair 0))
              (string_content (rb_ary_entry name_value_pair 1)), .PushTagResult_drop, .log_failure_to_process_tag err],
            by simp [is_tag_event], Or.inr ⟨_, rfl, rfl⟩⟩
        · obtain ⟨pushes, hp, h⟩ := ih (i + 1) tags
          refine ⟨[.Vec_tag_push (string_content (rb_ary_entry name_value_pair 0))
              (string_content (rb_ary_entry name_value_pair 1)), .PushTagResult_drop, .log_failure_to_process_tag err] ++
            pushes, ?_, ?_⟩
          · intro e he
            simp only [List.mem_append, List.mem_cons, List.mem_singleton] at he
            rcases he with (rfl | rfl | rfl | h) | h
            · rfl
            · rfl
            · rfl
            · simp at h
            · exact hp e h
          · rcases h with ⟨v, hr, ht⟩ | ⟨e, hr, ht⟩
            · exact Or.inl ⟨v, hr, by simp [ht]⟩
            · exact Or.inr ⟨e, hr, by simp [ht]⟩
      · obtain ⟨pushes, hp, h⟩ := ih (i + 1)
          (tags ++ [(string_content (rb_ary_entry name_value_pair 0),
            string_content (rb_ary_entry name_value_pair 1))])
        refine ⟨[.Vec_tag_push (string_content (rb_ary_entry name_value_pair 0))
              (string_content (rb_ary_entry name_value_pair 1)), .PushTagResult_drop] ++ pushes, ?_, ?_⟩
        · intro e he
          simp only [List.mem_append, List.mem_cons, List.mem_singleton] at he
          rcases he with (rfl | rfl | h) | h
          · rfl
          · rfl
          · simp at h
          · exact hp e h
        · rcases h with ⟨v, hr, ht⟩ | ⟨e, hr, ht⟩
          · exact Or.inl ⟨v, hr, by simp [ht]⟩
          · exact Or.inr ⟨e, hr, by simp [ht]⟩
    · exact ⟨[], by simp, Or.inr ⟨_, rfl, rfl⟩⟩

theorem convert_tags_loop_pairs (ffi : Libddprof) (host : Host)
    (hlog : ∀ i m, host.log_raises i m = 0) (pairs : List (String × String)) :
    ∀ (i : Nat) (tags : ddprof_ffi_Vec_tag),
      (convert_tags_loop ffi host (pairs.map (fun p => Value.ary [.str p.1, .str p.2])) i
          tags).result = .ok (tags ++ accepted_pairs ffi pairs) ∧
        logged (convert_tags_loop ffi host (pairs.map (fun p => Value.ary [.str p.1, .str p.2])) i
          tags).trace = rejection_messages ffi pairs := by
  induction pairs with
  | nil =>
    intro i tags
    simp [convert_tags_loop, accepted_pairs, rejection_messages, logged, Run.pure]
  | cons p rest ih =>
    intro i tags
    rw [List.map_cons, convert_tags_loop_cons]
    have hc : rb_type (Value.ary [.str p.1, .str p.2]) = .T_ARRAY ∧
        rb_type (rb_ary_entry (Value.ary [.str p.1, .str p.2]) 0) = .T_STRING ∧
        rb_type (rb_ary_entry (Value.ary [.str p.1, .str p.2]) 1) = .T_STRING :=
      ⟨rfl, rfl, rfl⟩
    rw [if_pos hc]
    have e0 : string_content (rb_ary_entry (Value.ary [.str p.1, .str p.2]) 0) = p.1 := rfl
    have e1 : string_content (rb_ary_entry (Value.ary [.str p.1, .str p.2]) 1) = p.2 := rfl
    rw [e0, e1]
    cases herr : ffi.tag_error p.1 p.2 with
    | none =>
      obtain ⟨hr, hl⟩ := ih (i + 1) (tags ++ [(p.1, p.2)])
      simp only []
      constructor
      · rw [hr]
        simp [accepted_pairs, List.filter_cons, herr]
      · simp only [logged, List.filterMap_append] at hl ⊢
        rw [hl]
        simp [rejection_messages, List.filterMap_cons, herr]
    | some err =>
      obtain ⟨hr, hl⟩ := ih (i + 1) tags
      simp only [hlog, ne_eq, not_true_eq_false, if_false]
      constructor
      · rw [hr]
        simp [accepted_pairs, List.filter_cons, herr]
      · simp only [logged, List.filterMap_append] at hl ⊢
        rw [hl]
        simp [rejection_messages, List.filterMap_cons, herr]

theorem convert_tags_array (ffi : Libddprof) (host : Host) (elems : List Value) :
    convert_tags ffi host (.ary elems) =
      ⟨.Vec_tag_new :: (convert_tags_loop ffi host elems 0 []).trace,
        (convert_tags_loop ffi host elems 0 []).result⟩ := by
  have h : Check_Type (.ary elems) .T_ARRAY = ⟨[], .ok ()⟩ := Check_Type_pass _ _ rfl
  simp only [convert_tags, h, bind, Run.bind, emit, array_elems, List.nil_append,
    List.singleton_append]

theorem convert_tags_not_array (ffi : Libddprof) (host : Host) (v : Value)
    (h : rb_type v ≠ .T_ARRAY) : convert_tags ffi host v = ⟨[], .error .typeError⟩ := by
  simp [convert_tags, Check_Type_fail v _ h, bind, Run.bind]

/-- C6: for string pairs and a logging callback that does not raise,
`convert_tags` returns the pairs the foreign push accepts, in input order, and
calls the logging callback once per rejected pair, in order, with the error
message of that push; converting the accepted pairs alone gives the same
vector, without any call of the logging callback. -/
theorem convert_tags_keeps_accepted_pairs (ffi : Libddprof) (host : Host)
    (pairs : List (String × String)) (hlog : ∀ i m, host.log_raises i m = 0) :
    (convert_tags ffi host (tags_array pairs)).result = .ok (accepted_pairs ffi pairs) ∧
      logged (convert_tags ffi host (tags_array pairs)).trace = rejection_messages ffi pairs ∧
      (convert_tags ffi host (tags_array (accepted_pairs ffi pairs))).result =
        (convert_tags ffi host (tags_array pairs)).result ∧
      logged (convert_tags ffi host (tags_array (accepted_pairs ffi pairs))).trace = [] := by
  have key : ∀ ps : List (String × String),
      (convert_tags ffi host (tags_array ps)).result = .ok (accepted_pairs ffi ps) ∧
        logged (convert_tags ffi host (tags_array ps)).trace = rejection_messages ffi ps := by
    intro ps
    obtain ⟨hr, hl⟩ := convert_tags_loop_pairs ffi host hlog ps 0 []
    rw [tags_array, convert_tags_array]
    refine ⟨by simpa using hr, ?_⟩
    simpa [logged] using hl
  have hacc : accepted_pairs ffi (accepted_pairs ffi pairs) = accepted_pairs ffi pairs := by
    simp [accepted_pairs, List.filter_filter]
  have hrej : rejection_messages ffi (accepted_pairs ffi pairs) = [] := by
    simp only [rejection_messages, accepted_pairs, List.filterMap_eq_nil_iff, List.mem_filter]
    intro p hp
    simpa using hp.2
  refine ⟨(key pairs).1, (key pairs).2, ?_, ?_⟩
  · rw [(key _).1, (key pairs).1, hacc]
  · rw [(key _).2, hrej]

theorem convert_tags_keeps_accepted_pairs_witness :
    (convert_tags sample_libddprof quiet_host (tags_array [("ok", "v"), ("", "")])).result =
        .ok [("ok", "v")] ∧
      logged (convert_tags sample_libddprof quiet_host
        (tags_array [("ok", "v"), ("", "")])).trace = ["tag key was empty"] :=
  ⟨(convert_tags_keeps_accepted_pairs sample_libddprof quiet_host [("ok", "v"), ("", "")]
      (fun _ _ => rfl)).1,
    (convert_tags_keeps_accepted_pairs sample_libddprof quiet_host [("ok", "v"), ("", "")]
      (fun _ _ => rfl)).2.1⟩

/-! ## Building the exporter -/

theorem endpoint_from_trace (c : Value) : (endpoint_from c).trace = [] := by
  by_cases hc : rb_type c = .T_ARRAY
  · by_cases h0 : ∃ id, rb_ary_entry c 0 = .sym id
    · obtain ⟨id, h0⟩ := h0
      rw [endpoint_from_symbol c id hc h0]
      split_ifs <;> rfl
    · rw [endpoint_from_not_symbol c hc (fun id h => h0 ⟨id, h⟩)]
  · rw [endpoint_from_not_array c hc]

theorem create_exporter_eq (ffi : Libddprof) (host : Host)
    (exporter_configuration tags_as_array : Value) :
    create_exporter ffi host exporter_configuration tags_as_array =
      if rb_type exporter_configuration = .T_ARRAY ∧ rb_type tags_as_array = .T_ARRAY then
        match (endpoint_from exporter_configuration).result with
        | .error e => ⟨[], .error e⟩
        | .ok endpoint =>
          match (convert_tags ffi host tags_as_array).result with
          | .error e => ⟨(convert_tags ffi host tags_as_array).trace, .error e⟩
          | .ok tags =>
            ⟨(convert_tags ffi host tags_as_array).trace ++
                [.ProfileExporterV3_new tags endpoint, .Vec_tag_drop],
              .ok (ddprof_ffi_ProfileExporterV3_new ffi "ruby" tags endpoint)⟩
      else ⟨[], .error .typeError⟩ := by
  unfold create_exporter
  by_cases hc : rb_type exporter_configuration = .T_ARRAY
  · by_cases ht : rb_type tags_as_array = .T_ARRAY
    · rw [if_pos (And.intro hc ht)]
      simp only [Check_Type_pass _ _ hc, Check_Type_pass _ _ ht, bind, Run.bind,
        List.nil_append, endpoint_from_trace]
      cases (endpoint_from exporter_configuration).result with
      | error e => rfl
      | ok endpoint =>
        simp only []
        cases (convert_tags ffi host tags_as_array).result with
        | error e => rfl
        | ok tags => simp [emit, pure, Run.pure]
    · rw [if_neg (fun h => ht h.2)]
      simp [Check_Type_pass _ _ hc, Check_Type_fail _ _ ht, bind, Run.bind]
  · rw [if_neg (fun h => hc h.1)]
    simp [Check_Type_fail _ _ hc, bind, Run.bind]

/-- The three ways `create_exporter` ends: it raises before the tag vector
exists, it raises out of the tag conversion after the vector was dropped, or it
returns the exporter result after dropping the vector. -/
theorem create_exporter_shape (ffi : Libddprof) (host : Host)
    (exporter_configuration tags_as_array : Value) :
    (∃ e, create_exporter ffi host exporter_configuration tags_as_array = ⟨[], .error e⟩) ∨
      (∃ pushes e, (∀ ev ∈ pushes, is_tag_event ev = true) ∧
        create_exporter ffi host exporter_configuration tags_as_array =
          ⟨.Vec_tag_new :: pushes ++ [.Vec_tag_drop], .error e⟩) ∨
      (∃ pushes tags endpoint, (∀ ev ∈ pushes, is_tag_event ev = true) ∧
        (endpoint_from exporter_configuration).result = .ok endpoint ∧
        (convert_tags ffi host tags_as_array).result = .ok tags ∧
        create_exporter ffi host exporter_configuration tags_as_array =
          ⟨.Vec_tag_new :: pushes ++ [.ProfileExporterV3_new tags endpoint, .Vec_tag_drop],
            .ok (ddprof_ffi_ProfileExporterV3_new ffi "ruby" tags endpoint)⟩) := by
  rw [create_exporter_eq]
  by_cases hc : rb_type exporter_configuration = .T_ARRAY ∧ rb_type tags_as_array = .T_ARRAY
  · rw [if_pos hc]
    obtain ⟨elems, rfl⟩ := (rb_type_array_iff _).1 hc.2
    cases hep : (endpoint_from exporter_configuration).result with
    | error e => exact Or.inl ⟨e, rfl⟩
    | ok endpoint =>
      simp only [convert_tags_array]
      obtain ⟨pushes, hp, h⟩ := convert_tags_loop_shape ffi host elems 0 []
      rcases h with ⟨v, hr, htr⟩ | ⟨e, hr, htr⟩
      · exact Or.inr (Or.inr ⟨pushes, v, endpoint, hp, rfl, hr, by simp [hr, htr]⟩)
      · exact Or.inr (Or.inl ⟨pushes, e, hp, by simp [hr, htr]⟩)
  · rw [if_neg hc]
    exact Or.inl ⟨_, rfl⟩

/-! ## Argument checks of `_native_do_export` -/

theorem Run.bind_trace_nil {α β : Type} (r : Run α) (f : α → Run β) (hr : r.trace = [])
    (hf : ∀ a, (f a).trace = []) : (Run.bind r f).trace = [] := by
  unfold Run.bind
  split
  · simp [hr, hf]
  · exact hr

theorem Check_Type_trace (v : Value) (t : RubyType) : (Check_Type v t).trace = [] := by
  unfold Check_Type
  split <;> rfl

theorem NUM2UINT_trace (v : Value) : (NUM2UINT v).trace = [] := by
  unfold NUM2UINT
  split <;> rfl

theorem char_slice_trace (v : Value) : (char_slice_from_ruby_string v).trace = [] :=
  Run.bind_trace_nil _ _ (Check_Type_trace _ _) (fun _ => rfl)

theorem byte_slice_trace (v : Value) : (byte_slice_from_ruby_string v).trace = [] :=
  Run.bind_trace_nil _ _ (Check_Type_trace _ _) (fun _ => rfl)

theorem native_do_export_arguments_trace
    (upload_timeout_milliseconds start_timespec_seconds start_timespec_nanoseconds
      finish_timespec_seconds finish_timespec_nanoseconds pprof_file_name pprof_data
      code_provenance_file_name code_provenance_data : Value) :
    ( _native_do_export_arguments upload_timeout_milliseconds start_timespec_seconds
      start_timespec_nanoseconds finish_timespec_seconds finish_timespec_nanoseconds
      pprof_file_name pprof_data code_provenance_file_name code_provenance_data).trace = [] := by
  unfold _native_do_export_arguments
  simp only [bind, pure]
  repeat' first
    | exact Check_Type_trace _ _
    | exact NUM2UINT_trace _
    | exact char_slice_trace _
    | exact byte_slice_trace _
    | rfl
    | apply Run.bind_trace_nil
    | intro _
    | split

theorem Run.bind_result_ok {α β : Type} (r : Run α) (f : α → Run β) (b : β) :
    (Run.bind r f).result = .ok b ↔ ∃ a, r.result = .ok a ∧ (f a).result = .ok b := by
  unfold Run.bind
  split
  · rename_i a h
    simp [h]
  · rename_i e h
    simp [h]

theorem Check_Type_result_ok (v : Value) (t : RubyType) (u : Unit) :
    (Check_Type v t).result = .ok u ↔ rb_type v = t := by
  unfold Check_Type
  split <;> simp_all [RB_TYPE_P, Run.pure, raise]

theorem NUM2UINT_result_ok (v : Value) (n : Nat) :
    (NUM2UINT v).result = .ok n ↔
      (-(2 : Int) ^ 31 ≤ fixnum_value v ∧ fixnum_value v < (2 : Int) ^ 32) ∧
        n = (fixnum_value v % 2 ^ 32).toNat := by
  unfold NUM2UINT
  split
  · rename_i h
    simp only [raise, false_iff, reduceCtorEq]
    intro hh
    omega
  · rename_i h
    simp only [Run.pure, Except.ok.injEq]
    constructor
    · intro hn
      exact ⟨by omega, hn.symm⟩
    · intro hn
      exact hn.2.symm

theorem char_slice_result_ok (v : Value) (s : String) :
    (char_slice_from_ruby_string v).result = .ok s ↔
      rb_type v = .T_STRING ∧ s = string_content v := by
  simp only [char_slice_from_ruby_string, bind, pure, Run.bind_result_ok, Check_Type_result_ok,
    Run.pure, Except.ok.injEq, exists_and_left, exists_const]
  exact and_congr_right (fun _ => eq_comm)

theorem byte_slice_result_ok (v : Value) (s : String) :
    (byte_slice_from_ruby_string v).result = .ok s ↔
      rb_type v = .T_STRING ∧ s = string_content v := by
  simp only [byte_slice_from_ruby_string, bind, pure, Run.bind_result_ok, Check_Type_result_ok,
    Run.pure, Except.ok.injEq, exists_and_left, exists_const]
  exact and_congr_right (fun _ => eq_comm)

/-- When the argument checks of `_native_do_export` pass, and what they compute. -/
theorem native_do_export_arguments_ok_iff
    (upload_timeout_milliseconds start_timespec_seconds start_timespec_nanoseconds
      finish_timespec_seconds finish_timespec_nanoseconds pprof_file_name pprof_data
      code_provenance_file_name code_provenance_data : Value) (a : ExportArguments) :
    ( _native_do_export_arguments upload_timeout_milliseconds start_timespec_seconds
        start_timespec_nanoseconds finish_timespec_seconds finish_timespec_nanoseconds
        pprof_file_name pprof_data code_provenance_file_name code_provenance_data).result =
        .ok a ↔
      (rb_type upload_timeout_milliseconds = .T_FIXNUM ∧
        rb_type start_timespec_seconds = .T_FIXNUM ∧
        rb_type start_timespec_nanoseconds = .T_FIXNUM ∧
        rb_type finish_timespec_seconds = .T_FIXNUM ∧
        rb_type finish_timespec_nanoseconds = .T_FIXNUM ∧
        rb_type pprof_file_name = .T_STRING ∧
        rb_type pprof_data = .T_STRING ∧
        rb_type code_provenance_file_name = .T_STRING ∧
        (NIL_P code_provenance_data = false → rb_type code_provenance_data = .T_STRING) ∧
        (-(2 : Int) ^ 31 ≤ fixnum_value start_timespec_nanoseconds ∧
          fixnum_value start_timespec_nanoseconds < (2 : Int) ^ 32) ∧
        (-(2 : Int) ^ 31 ≤ fixnum_value finish_timespec_nanoseconds ∧
          fixnum_value finish_timespec_nanoseconds < (2 : Int) ^ 32)) ∧
      a = ⟨(fixnum_value upload_timeout_milliseconds % 2 ^ 64).toNat,
          ⟨fixnum_value start_timespec_seconds,
            (fixnum_value start_timespec_nanoseconds % 2 ^ 32).toNat⟩,
          ⟨fixnum_value finish_timespec_seconds,
            (fixnum_value finish_timespec_nanoseconds % 2 ^ 32).toNat⟩,
          ⟨string_content pprof_file_name, string_content pprof_data⟩ ::
            (if NIL_P code_provenance_data then []
            else [⟨string_content code_provenance_file_name,
              string_content code_provenance_data⟩])⟩ := by
  unfold _native_do_export_arguments
  cases hn : NIL_P code_provenance_data <;>
    simp only [bind, pure, Run.bind_result_ok, Check_Type_result_ok, NUM2UINT_result_ok,
      char_slice_result_ok, byte_slice_result_ok, NUM2ULONG, NUM2LONG, Run.pure,
      Except.ok.injEq, Bool.not_false, Bool.not_true, if_true, if_false, exists_and_left,
      exists_const, exists_eq_left, Bool.false_eq_true] <;>
    constructor <;> intro h <;> aesop

/-! ## The two entry points, case by case -/

theorem native_validate_exporter_eq (ffi : Libddprof) (host : Host)
    (exporter_configuration : Value) :
    _native_validate_exporter ffi host exporter_configuration =
      if rb_type exporter_configuration = .T_ARRAY then
        match (create_exporter ffi host exporter_configuration (.ary [])).result with
        | .error e => ⟨(create_exporter ffi host exporter_configuration (.ary [])).trace, .error e⟩
        | .ok (.err details) =>
          ⟨(create_exporter ffi host exporter_configuration (.ary [])).trace ++
              [.NewProfileExporterV3Result_drop],
            .ok (.ary [error_symbol, ruby_string_from_vec_u8 details])⟩
        | .ok (.ok _) =>
          ⟨(create_exporter ffi host exporter_configuration (.ary [])).trace ++
              [.NewProfileExporterV3Result_drop],
            .ok (.ary [ok_symbol, .nil])⟩
      else ⟨[], .error .typeError⟩ := by
  unfold _native_validate_exporter
  by_cases hc : rb_type exporter_configuration = .T_ARRAY
  · rw [if_pos hc]
    simp only [Check_Type_pass _ _ hc, bind, Run.bind, List.nil_append]
    cases (create_exporter ffi host exporter_configuration (.ary [])).result with
    | error e => rfl
    | ok exporter_result =>
      cases exporter_result with
      | ok exporter => simp [handle_exporter_failure, Run.pure, NIL_P, emit, pure]
      | err details =>
        simp [handle_exporter_failure, Run.pure, NIL_P, emit, pure, bind, Run.bind]
  · rw [if_neg hc]
    simp [Check_Type_fail _ _ hc, bind, Run.bind]

theorem native_do_export_eq (ffi : Libddprof) (host : Host)
    (exporter_configuration upload_timeout_milliseconds start_timespec_seconds
      start_timespec_nanoseconds finish_timespec_seconds finish_timespec_nanoseconds
      pprof_file_name pprof_data code_provenance_file_name code_provenance_data
      tags_as_array : Value) (fuel : Nat) :
    _native_do_export ffi host exporter_configuration upload_timeout_milliseconds
        start_timespec_seconds start_timespec_nanoseconds finish_timespec_seconds
        finish_timespec_nanoseconds pprof_file_name pprof_data code_provenance_file_name
        code_provenance_data tags_as_array fuel =
      match ( _native_do_export_arguments upload_timeout_milliseconds start_timespec_seconds
          start_timespec_nanoseconds finish_timespec_seconds finish_timespec_nanoseconds
          pprof_file_name pprof_data code_provenance_file_name code_provenance_data).result with
      | .error e => some ⟨[], .error e⟩
      | .ok a =>
        match (create_exporter ffi host exporter_configuration tags_as_array).result with
        | .error e =>
          some ⟨(create_exporter ffi host exporter_configuration tags_as_array).trace, .error e⟩
        | .ok (.err details) =>
          some ⟨(create_exporter ffi host exporter_configuration tags_as_array).trace ++
              [.NewProfileExporterV3Result_drop],
            .ok (.ary [error_symbol, ruby_string_from_vec_u8 details])⟩
        | .ok (.ok exporter) =>
          (perform_export ffi host (.ok exporter) a.start a.finish a.slice_files none
            a.timeout_milliseconds fuel).map
            (fun r =>
              ⟨(create_exporter ffi host exporter_configuration tags_as_array).trace ++ r.trace,
                r.result⟩) := by
  unfold _native_do_export
  simp only [Run.andThen, native_do_export_arguments_trace, List.nil_append]
  cases ( _native_do_export_arguments upload_timeout_milliseconds start_timespec_seconds
      start_timespec_nanoseconds finish_timespec_seconds finish_timespec_nanoseconds
      pprof_file_name pprof_data code_provenance_file_name code_provenance_data).result with
  | error e => rfl
  | ok a =>
    simp only []
    cases (create_exporter ffi host exporter_configuration tags_as_array).result with
    | error e => rfl
    | ok exporter_result =>
      cases exporter_result with
      | ok exporter =>
        simp only [handle_exporter_failure, Run.pure, NIL_P, Bool.not_true, List.nil_append]
        cases perform_export ffi host (.ok exporter) a.start a.finish a.slice_files none
            a.timeout_milliseconds fuel <;> simp
      | err details =>
        simp [handle_exporter_failure, Run.pure, NIL_P, emit, pure, bind, Run.bind]

/-- How the retry loop can end, for any host and any fuel: either the last call
ran the send, and then no pending exception was recorded, or no call ran it
and a pending exception was recorded. -/
theorem perform_export_loop_exit (ffi : Libddprof) (host : Host) (fuel : Nat) :
    ∀ (i : Nat) (s : ExportLoop) (out : List Event × ExportLoop),
      s.args.send_ran = false → s.pending_exception = 0 →
      perform_export_loop ffi host fuel i s = some out →
      (∃ ubf,
        out = ((if ubf then [Event.CancellationToken_cancel] else []) ++
            [Event.ProfileExporterV3_send s.args.request (s.cancelled || ubf)],
          { args := { s.args with
              result := some (ffi.send s.args.request (s.cancelled || ubf)), send_ran := true },
            cancelled := s.cancelled || ubf,
            pending_exception := 0 })) ∨
        (∃ pending, pending ≠ 0 ∧ out = ([], { s with pending_exception := pending })) := by
  induction fuel with
  | zero =>
    intro i s out hran hpend h
    simp [perform_export_loop, hran, hpend] at h
  | succ fuel ih =>
    intro i s out hran hpend h
    cases hg : host.without_gvl i with
    | ran ubf pending =>
      rw [perform_export_loop_ran ffi host fuel i s ubf pending hran hpend hg] at h
      exact Or.inl ⟨ubf, (Option.some.inj h).symm⟩
    | not_run pending =>
      by_cases hp : pending = 0
      · subst hp
        have hs : ({ s with pending_exception := 0 } : ExportLoop) = s := by
          cases s; simp_all
        have hstep : perform_export_loop ffi host (fuel + 1) i s =
            perform_export_loop ffi host fuel (i + 1) s := by
          simp [perform_export_loop, hran, hpend, hg, hs]
        rw [hstep] at h
        exact ih (i + 1) s out hran hpend h
      · rw [perform_export_loop_pending ffi host fuel i s pending hran hpend hg hp] at h
        exact Or.inr ⟨pending, hp, (Option.some.inj h).symm⟩

/-- The trace of `perform_export`, for any host and any fuel that gives a
result: token and request, at most one cancellation, one send, the three
releases. -/
theorem perform_export_shape (ffi : Libddprof) (host : Host)
    (exporter : ddprof_ffi_ProfileExporterV3) (start finish : ddprof_ffi_Timespec)
    (slice_files : List ddprof_ffi_File) (additional_tags : Option ddprof_ffi_Vec_tag)
    (timeout_milliseconds fuel : Nat) (r : Run Value)
    (h : perform_export ffi host (.ok exporter) start finish slice_files additional_tags
      timeout_milliseconds fuel = some r) :
    ∃ cancels cancelled, (cancels = [] ∨ cancels = [Event.CancellationToken_cancel]) ∧
      r.trace =
        [.CancellationToken_new,
          .ProfileExporterV3_build
            ⟨exporter, start, finish, slice_files, additional_tags, timeout_milliseconds⟩] ++
        cancels ++
        [.ProfileExporterV3_send
            ⟨exporter, start, finish, slice_files, additional_tags, timeout_milliseconds⟩
            cancelled,
          .SendResult_drop, .CancellationToken_drop, .NewProfileExporterV3Result_drop] := by
  unfold perform_export at h
  simp only [] at h
  cases hl : perform_export_loop ffi host fuel 0
      ⟨{ exporter := exporter,
          request :=
            ⟨exporter, start, finish, slice_files, additional_tags, timeout_milliseconds⟩,
          result := none, send_ran := false }, false, 0⟩ with
  | none => simp [hl] at h
  | some out =>
    rw [hl] at h
    rcases perform_export_loop_exit ffi host fuel 0 _ out rfl rfl hl with ⟨ubf, rfl⟩ | ⟨p, hp, rfl⟩
    · simp only [ne_eq, not_true_eq_false, if_false, Bool.false_or, Option.some.injEq] at h
      subst h
      cases ubf
      · exact ⟨[], false, Or.inl rfl, by simp⟩
      · exact ⟨[.CancellationToken_cancel], true, Or.inr rfl, by simp⟩
    · simp only [ne_eq, hp, not_false_eq_true, if_true, call_exporter_without_gvl,
        interrupt_exporter_call, Option.some.injEq] at h
      subst h
      exact ⟨[.CancellationToken_cancel], true, Or.inr rfl, by simp⟩

/-- C3: for a configuration that `endpoint_from` accepts, the foreign builder
decides the result. `_native_validate_exporter` returns `(ok, nil)` exactly
when the builder returns an exporter, and `(error, m)` with the error bytes of
the builder as a string otherwise. `_native_do_export`, once its arguments
passed the checks and the tags were converted, returns the same `(error, m)`
when the builder fails, and its trace ends with the builder call and the two
releases: no cancellation token is created, no request built, no send made. -/
theorem exporter_builder_outcome_decides (ffi : Libddprof) (host : Host)
    (exporter_configuration upload_timeout_milliseconds start_timespec_seconds
      start_timespec_nanoseconds finish_timespec_seconds finish_timespec_nanoseconds
      pprof_file_name pprof_data code_provenance_file_name code_provenance_data
      tags_as_array : Value) (fuel : Nat) (endpoint : ddprof_ffi_EndpointV3)
    (hconf : (endpoint_from exporter_configuration).result = .ok endpoint) :
    (( _native_validate_exporter ffi host exporter_configuration).result =
          .ok (.ary [ok_symbol, .nil]) ↔
        ∃ exporter, ddprof_ffi_ProfileExporterV3_new ffi "ruby" [] endpoint = .ok exporter) ∧
      (∀ m, ddprof_ffi_ProfileExporterV3_new ffi "ruby" [] endpoint = .err m →
        ( _native_validate_exporter ffi host exporter_configuration).result =
          .ok (.ary [error_symbol, ruby_string_from_vec_u8 m])) ∧
      (∀ a tags m,
        ( _native_do_export_arguments upload_timeout_milliseconds start_timespec_seconds
            start_timespec_nanoseconds finish_timespec_seconds finish_timespec_nanoseconds
            pprof_file_name pprof_data code_provenance_file_name
            code_provenance_data).result = .ok a →
        (convert_tags ffi host tags_as_array).result = .ok tags →
        ddprof_ffi_ProfileExporterV3_new ffi "ruby" tags endpoint = .err m →
        ∃ pushes, (∀ e ∈ pushes, is_tag_event e = true) ∧
          _native_do_export ffi host exporter_configuration upload_timeout_milliseconds
              start_timespec_seconds start_timespec_nanoseconds finish_timespec_seconds
              finish_timespec_nanoseconds pprof_file_name pprof_data code_provenance_file_name
              code_provenance_data tags_as_array fuel =
            some ⟨.Vec_tag_new :: pushes ++
                [.ProfileExporterV3_new tags endpoint, .Vec_tag_drop,
                  .NewProfileExporterV3Result_drop],
              .ok (.ary [error_symbol, ruby_string_from_vec_u8 m])⟩) := by
  have hc : rb_type exporter_configuration = .T_ARRAY := by
    by_contra hne
    rw [endpoint_from_not_array _ hne] at hconf
    cases hconf
  have hval : _native_validate_exporter ffi host exporter_configuration =
      match ddprof_ffi_ProfileExporterV3_new ffi "ruby" [] endpoint with
      | .err details =>
        ⟨[.Vec_tag_new, .ProfileExporterV3_new [] endpoint, .Vec_tag_drop,
            .NewProfileExporterV3Result_drop],
          .ok (.ary [error_symbol, ruby_string_from_vec_u8 details])⟩
      | .ok _ =>
        ⟨[.Vec_tag_new, .ProfileExporterV3_new [] endpoint, .Vec_tag_drop,
            .NewProfileExporterV3Result_drop],
          .ok (.ary [ok_symbol, .nil])⟩ := by
    have hce : create_exporter ffi host exporter_configuration (.ary []) =
        ⟨[.Vec_tag_new, .ProfileExporterV3_new [] endpoint, .Vec_tag_drop],
          .ok (ddprof_ffi_ProfileExporterV3_new ffi "ruby" [] endpoint)⟩ := by
      have hboth : rb_type exporter_configuration = .T_ARRAY ∧
          rb_type (Value.ary []) = .T_ARRAY := ⟨hc, rfl⟩
      rw [create_exporter_eq, if_pos hboth, hconf, convert_tags_array]
      rfl
    rw [native_validate_exporter_eq, if_pos hc, hce]
    cases ddprof_ffi_ProfileExporterV3_new ffi "ruby" [] endpoint <;> rfl
  refine ⟨?_, ?_, ?_⟩
  · rw [hval]
    cases hb : ddprof_ffi_ProfileExporterV3_new ffi "ruby" [] endpoint with
    | ok exporter => simp
    | err details => simp [ok_symbol, error_symbol]
  · intro m hm
    rw [hval, hm]
  · intro a tags m ha htags hm
    have ht : rb_type tags_as_array = .T_ARRAY := by
      by_contra hne
      rw [convert_tags_not_array _ _ _ hne] at htags
      cases htags
    obtain ⟨elems, rfl⟩ := (rb_type_array_iff _).1 ht
    obtain ⟨pushes, hp, hshape⟩ := convert_tags_loop_shape ffi host elems 0 []
    rw [convert_tags_array] at htags
    simp only [] at htags
    rcases hshape with ⟨v, hr, htr⟩ | ⟨e, hr, _⟩
    · refine ⟨pushes, hp, ?_⟩
      rw [native_do_export_eq, ha, create_exporter_eq, if_pos (And.intro hc ht), hconf,
        convert_tags_array]
      simp only [htags, hm, htr, List.cons_append, List.append_assoc, List.singleton_append,
        List.nil_append]
    · rw [hr] at htags
      cases htags

theorem exporter_builder_outcome_decides_witness :
    ( _native_validate_exporter sample_libddprof quiet_host rejected_configuration).result =
      .ok (.ary [error_symbol, .str "bad site"]) :=
  (exporter_builder_outcome_decides sample_libddprof quiet_host rejected_configuration
    (.int 10000) (.int 1700000000) (.int 0) (.int 1700000060) (.int 0) (.str "profile.pprof")
    (.str "<binary>") (.str "code-provenance.json") .nil sample_tags 1 (.agentless "bad" "k")
    rfl).2.1 "bad site" rfl

/-! ## Release of foreign resources -/

theorem Lifecycle.step_tag_event (res : Resource) (s : Lifecycle) (e : Event)
    (h : is_tag_event e = true) : Lifecycle.step res s e = s := by
  cases e <;> simp_all [is_tag_event, Lifecycle.step, Event.constructs, Event.releases]

theorem Lifecycle.foldl_tag_events (res : Resource) (pushes : List Event)
    (h : ∀ e ∈ pushes, is_tag_event e = true) (s : Lifecycle) :
    pushes.foldl (Lifecycle.step res) s = s := by
  induction pushes generalizing s with
  | nil => rfl
  | cons e rest ih =>
    rw [List.foldl_cons, Lifecycle.step_tag_event res s e (h e (List.mem_cons_self _ _))]
    exact ih (fun e he => h e (List.mem_cons_of_mem _ he)) s

theorem released_exactly_once_nil : released_exactly_once [] := by
  intro res
  exact Or.inl rfl

theorem released_exactly_once_tags_dropped (pushes : List Event)
    (h : ∀ e ∈ pushes, is_tag_event e = true) :
    released_exactly_once (.Vec_tag_new :: pushes ++ [.Vec_tag_drop]) := by
  intro res
  cases res <;>
    simp [lifecycle, List.foldl_append, Lifecycle.foldl_tag_events _ pushes h, Lifecycle.step,
      Event.constructs, Event.releases]

theorem released_exactly_once_builder (pushes : List Event)
    (h : ∀ e ∈ pushes, is_tag_event e = true) (tags : ddprof_ffi_Vec_tag)
    (endpoint : ddprof_ffi_EndpointV3) :
    released_exactly_once
      ((.Vec_tag_new :: pushes ++ [.ProfileExporterV3_new tags endpoint, .Vec_tag_drop]) ++
        [.NewProfileExporterV3Result_drop]) := by
  intro res
  cases res <;>
    simp [lifecycle, List.foldl_append, Lifecycle.foldl_tag_events _ pushes h, Lifecycle.step,
      Event.constructs, Event.releases]

theorem released_exactly_once_upload (pushes cancels : List Event)
    (h : ∀ e ∈ pushes, is_tag_event e = true) (tags : ddprof_ffi_Vec_tag)
    (endpoint : ddprof_ffi_EndpointV3) (request : ddprof_ffi_Request) (cancelled : Bool)
    (hc : cancels = [] ∨ cancels = [Event.CancellationToken_cancel]) :
    released_exactly_once
      ((.Vec_tag_new :: pushes ++ [.ProfileExporterV3_new tags endpoint, .Vec_tag_drop]) ++
        ([.CancellationToken_new, .ProfileExporterV3_build request] ++ cancels ++
          [.ProfileExporterV3_send request cancelled, .SendResult_drop,
            .CancellationToken_drop, .NewProfileExporterV3Result_drop])) := by
  intro res
  rcases hc with rfl | rfl <;> cases res <;>
    simp [lifecycle, List.foldl_append, Lifecycle.foldl_tag_events _ pushes h, Lifecycle.step,
      Event.constructs, Event.releases]

/-- C4: on every exit path of `_native_validate_exporter` and of
`_native_do_export` (a raise before or during tag conversion, the logging
callback raising, a builder failure, a send that answered or failed, a pending
exception), every tag vector, exporter result, cancellation token and send
result that was constructed was released exactly once, after its construction:
none is left live, released twice or released without being live. -/
theorem foreign_resources_released_exactly_once (ffi : Libddprof) (host : Host)
    (exporter_configuration upload_timeout_milliseconds start_timespec_seconds
      start_timespec_nanoseconds finish_timespec_seconds finish_timespec_nanoseconds
      pprof_file_name pprof_data code_provenance_file_name code_provenance_data
      tags_as_array : Value) (fuel : Nat) :
    released_exactly_once ( _native_validate_exporter ffi host exporter_configuration).trace ∧
      ∀ r,
        _native_do_export ffi host exporter_configuration upload_timeout_milliseconds
            start_timespec_seconds start_timespec_nanoseconds finish_timespec_seconds
            finish_timespec_nanoseconds pprof_file_name pprof_data code_provenance_file_name
            code_provenance_data tags_as_array fuel = some r →
          released_exactly_once r.trace := by
  constructor
  · rw [native_validate_exporter_eq]
    split
    · rcases create_exporter_shape ffi host exporter_configuration (.ary []) with
        ⟨e, h⟩ | ⟨pushes, e, hp, h⟩ | ⟨pushes, tags, endpoint, hp, _, _, h⟩
      · rw [h]
        exact released_exactly_once_nil
      · rw [h]
        exact released_exactly_once_tags_dropped pushes hp
      · rw [h]
        simp only []
        cases ddprof_ffi_ProfileExporterV3_new ffi "ruby" tags endpoint <;>
          exact released_exactly_once_builder pushes hp tags endpoint
    · exact released_exactly_once_nil
  · intro r hr
    rw [native_do_export_eq] at hr
    split at hr
    · cases Option.some.inj hr
      exact released_exactly_once_nil
    · rename_i a _
      rcases create_exporter_shape ffi host exporter_configuration tags_as_array with
        ⟨e, h⟩ | ⟨pushes, e, hp, h⟩ | ⟨pushes, tags, endpoint, hp, _, _, h⟩
      · rw [h] at hr
        cases Option.some.inj hr
        exact released_exactly_once_nil
      · rw [h] at hr
        cases Option.some.inj hr
        exact released_exactly_once_tags_dropped pushes hp
      · rw [h] at hr
        simp only [] at hr
        cases hb : ddprof_ffi_ProfileExporterV3_new ffi "ruby" tags endpoint with
        | err details =>
          rw [hb] at hr
          cases Option.some.inj hr
          exact released_exactly_once_builder pushes hp tags endpoint
        | ok exporter =>
          rw [hb] at hr
          simp only [Option.map_eq_some'] at hr
          obtain ⟨r2, hr2, rfl⟩ := hr
          obtain ⟨cancels, cancelled, hc, htr⟩ := perform_export_shape ffi host exporter a.start
            a.finish a.slice_files none a.timeout_milliseconds fuel r2 hr2
          simp only [htr]
          exact released_exactly_once_upload pushes cancels hp tags endpoint _ cancelled hc

theorem foreign_resources_released_exactly_once_witness :
    released_exactly_once
        [.Vec_tag_new, .Vec_tag_push "service" "demo", .PushTagResult_drop,
          .ProfileExporterV3_new [("service", "demo")] (.agent "http://127.0.0.1:8126"),
          .Vec_tag_drop, .CancellationToken_new, .ProfileExporterV3_build sample_request,
          .CancellationToken_cancel, .ProfileExporterV3_send sample_request true,
          .SendResult_drop, .CancellationToken_drop, .NewProfileExporterV3Result_drop] ∧
      released_exactly_once
        [.Vec_tag_new, .Vec_tag_push "" "", .PushTagResult_drop,
          .log_failure_to_process_tag "tag key was empty", .Vec_tag_drop] :=
  ⟨(foreign_resources_released_exactly_once sample_libddprof pending_host sample_configuration
      (.int 10000) (.int 1700000000) (.int 0) (.int 1700000060) (.int 0) (.str "profile.pprof")
      (.str "<binary>") (.str "code-provenance.json") .nil sample_tags 1).2
      ⟨[.Vec_tag_new, .Vec_tag_push "service" "demo", .PushTagResult_drop,
          .ProfileExporterV3_new [("service", "demo")] (.agent "http://127.0.0.1:8126"),
          .Vec_tag_drop, .CancellationToken_new, .ProfileExporterV3_build sample_request,
          .CancellationToken_cancel, .ProfileExporterV3_send sample_request true,
          .SendResult_drop, .CancellationToken_drop, .NewProfileExporterV3Result_drop],
        .error (.jump 7)⟩
      rfl,
    (foreign_resources_released_exactly_once sample_libddprof raising_log_host
      sample_configuration (.int 10000) (.int 1700000000) (.int 0) (.int 1700000060) (.int 0)
      (.str "profile.pprof") (.str "<binary>") (.str "code-provenance.json") .nil rejected_tags
      1).2
      ⟨[.Vec_tag_new, .Vec_tag_push "" "", .PushTagResult_drop,
          .log_failure_to_process_tag "tag key was empty", .Vec_tag_drop],
        .error (.jump 6)⟩
      rfl⟩

/-! ## The files of an upload -/

theorem Run.andThen_ok_nil {α β : Type} (a : α) (k : α → Option (Run β)) :
    Run.andThen ⟨[], .ok a⟩ k = k a := by
  simp only [Run.andThen, List.nil_append]
  cases k a <;> rfl

/-- C9, refuted as stated: with both the provenance file name and the
provenance data `nil` and every other argument well-typed, the unconditional
type check of the file name raises a type error before any foreign call. -/
theorem do_export_rejects_nil_provenance_name :
    _native_do_export sample_libddprof quiet_host sample_configuration (.int 10000)
        (.int 1700000000) (.int 0) (.int 1700000060) (.int 0) (.str "profile.pprof")
        (.str "<binary>") .nil .nil sample_tags 1 =
      some ⟨[], .error .typeError⟩ := by
  rfl

/-- C9, amended: provenance is absent when the provenance data is `nil`, and the
provenance file name must still be a string. Then, for fixnum timeout and
seconds, nanoseconds within 32 unsigned bits and string pprof name and data, the
argument checks raise no error and make no foreign call, the files slice is the
pprof file alone (length 1), and `_native_do_export` goes on to build the
exporter and upload with that slice. -/
theorem absent_provenance_data_passes_checks (t ss sn fs fn : Int) (pn pd cn : String)
    (ht : fixable t = true) (hss : fixable ss = true) (hfs : fixable fs = true)
    (hsn : 0 ≤ sn ∧ sn < 2 ^ 32) (hfn : 0 ≤ fn ∧ fn < 2 ^ 32) :
    _native_do_export_arguments (.int t) (.int ss) (.int sn) (.int fs) (.int fn) (.str pn)
          (.str pd) (.str cn) .nil =
        ⟨[], .ok ⟨(t % 2 ^ 64).toNat, ⟨ss, sn.toNat⟩, ⟨fs, fn.toNat⟩, [⟨pn, pd⟩]⟩⟩ ∧
      [(⟨pn, pd⟩ : ddprof_ffi_File)].length = 1 ∧
      ∀ (ffi : Libddprof) (host : Host) (exporter_configuration tags_as_array : Value)
        (fuel : Nat),
        _native_do_export ffi host exporter_configuration (.int t) (.int ss) (.int sn)
            (.int fs) (.int fn) (.str pn) (.str pd) (.str cn) .nil tags_as_array fuel =
          Run.andThen (create_exporter ffi host exporter_configuration tags_as_array)
            (fun exporter_result =>
              Run.andThen (handle_exporter_failure exporter_result)
                (fun failure_tuple =>
                  if !NIL_P failure_tuple then some (Run.pure failure_tuple)
                  else
                    perform_export ffi host exporter_result ⟨ss, sn.toNat⟩ ⟨fs, fn.toNat⟩
                      [⟨pn, pd⟩] none (t % 2 ^ 64).toNat fuel)) := by
  have hfix : ∀ n : Int, 0 ≤ n ∧ n < 2 ^ 32 → fixable n = true := by
    intro n hn
    simp only [fixable, Bool.and_eq_true, decide_eq_true_eq]
    omega
  have hmod : ∀ n : Int, 0 ≤ n ∧ n < 2 ^ 32 → n % 2 ^ 32 = n :=
    fun n hn => Int.emod_eq_of_lt hn.1 hn.2
  have hres := (native_do_export_arguments_ok_iff (.int t) (.int ss) (.int sn) (.int fs)
    (.int fn) (.str pn) (.str pd) (.str cn) .nil _).2
    ⟨⟨by simp [rb_type, ht], by simp [rb_type, hss], by simp [rb_type, hfix sn hsn],
      by simp [rb_type, hfs], by simp [rb_type, hfix fn hfn], rfl, rfl, rfl,
      by simp [NIL_P], by simp only [fixnum_value]; omega,
      by simp only [fixnum_value]; omega⟩, rfl⟩
  simp only [fixnum_value, string_content, NIL_P, if_true, hmod sn hsn, hmod fn hfn] at hres
  have htr := native_do_export_arguments_trace (.int t) (.int ss) (.int sn) (.int fs)
    (.int fn) (.str pn) (.str pd) (.str cn) .nil
  have hargs : _native_do_export_arguments (.int t) (.int ss) (.int sn) (.int fs) (.int fn)
      (.str pn) (.str pd) (.str cn) .nil =
      ⟨[], .ok ⟨(t % 2 ^ 64).toNat, ⟨ss, sn.toNat⟩, ⟨fs, fn.toNat⟩, [⟨pn, pd⟩]⟩⟩ := by
    rw [← htr, ← hres]
  refine ⟨hargs, rfl, ?_⟩
  intro ffi host exporter_configuration tags_as_array fuel
  unfold _native_do_export
  rw [hargs, Run.andThen_ok_nil]

theorem absent_provenance_data_passes_checks_witness :
    _native_do_export_arguments (.int 10000) (.int 1700000000) (.int 0) (.int 1700000060)
        (.int 0) (.str "profile.pprof") (.str "<binary>") (.str "code-provenance.json") .nil =
      ⟨[], .ok ⟨10000, ⟨1700000000, 0⟩, ⟨1700000060, 0⟩, [⟨"profile.pprof", "<binary>"⟩]⟩⟩ :=
  (absent_provenance_data_passes_checks 10000 1700000000 0 1700000060 0 "profile.pprof"
    "<binary>" "code-provenance.json" (by decide) (by decide) (by decide) (by decide)
    (by decide)).1

/-- C10: in every call of `_native_do_export` with string pprof name, pprof data
and provenance name, the files slice of any request handed to the request
builder is the pprof file followed by the provenance file (length 2) when the
provenance data is a string, and the pprof file alone (length 1) when it is
`nil`; the pprof file is first in both. -/
theorem files_slice_handed_to_builder (ffi : Libddprof) (host : Host)
    (exporter_configuration upload_timeout_milliseconds start_timespec_seconds
      start_timespec_nanoseconds finish_timespec_seconds finish_timespec_nanoseconds
      tags_as_array : Value)
    (pn pd cn : String) (cd : Option String) (fuel : Nat) (r : Run Value)
    (request : ddprof_ffi_Request)
    (h : _native_do_export ffi host exporter_configuration upload_timeout_milliseconds
        start_timespec_seconds start_timespec_nanoseconds finish_timespec_seconds
        finish_timespec_nanoseconds (.str pn) (.str pd) (.str cn) (provenance_value cd)
        tags_as_array fuel = some r)
    (hb : Event.ProfileExporterV3_build request ∈ r.trace) :
    request.slice_files =
        (match cd with
        | none => [⟨pn, pd⟩]
        | some data => [⟨pn, pd⟩, ⟨cn, data⟩]) ∧
      request.slice_files.length =
        (match cd with
        | none => 1
        | some _ => 2) ∧
      request.slice_files.head? = some ⟨pn, pd⟩ := by
  have hfiles : request.slice_files =
      (match cd with
      | none => [⟨pn, pd⟩]
      | some data => [⟨pn, pd⟩, ⟨cn, data⟩]) := by
    rw [native_do_export_eq] at h
    split at h
    · cases Option.some.inj h
      simp at hb
    · rename_i a ha
      have hfa := ((native_do_export_arguments_ok_iff _ _ _ _ _ _ _ _ _ a).1 ha).2
      rcases create_exporter_shape ffi host exporter_configuration tags_as_array with
        ⟨e, hce⟩ | ⟨pushes, e, hp, hce⟩ | ⟨pushes, tags, endpoint, hp, _, _, hce⟩
      · rw [hce] at h
        cases Option.some.inj h
        simp at hb
      · rw [hce] at h
        cases Option.some.inj h
        simp only [List.mem_cons, List.mem_append, List.mem_singleton, reduceCtorEq,
          false_or, or_false, List.not_mem_nil] at hb
        have := hp _ hb
        simp [is_tag_event] at this
      · rw [hce] at h
        simp only [] at h
        cases hbuild : ddprof_ffi_ProfileExporterV3_new ffi "ruby" tags endpoint with
        | err details =>
          rw [hbuild] at h
          cases Option.some.inj h
          simp only [List.mem_cons, List.mem_append, List.mem_singleton, reduceCtorEq,
            false_or, or_false, List.not_mem_nil] at hb
          have := hp _ hb
          simp [is_tag_event] at this
        | ok exporter =>
          rw [hbuild] at h
          simp only [Option.map_eq_some'] at h
          obtain ⟨r2, hr2, rfl⟩ := h
          obtain ⟨cancels, cancelled, hc, htr⟩ := perform_export_shape ffi host exporter a.start
            a.finish a.slice_files none a.timeout_milliseconds fuel r2 hr2
          simp only [htr, List.mem_cons, List.mem_append, List.mem_singleton, reduceCtorEq,
            false_or, or_false, List.not_mem_nil, Event.ProfileExporterV3_build.injEq] at hb
          rcases hb with hb | hb | hb
          · have := hp _ hb
            simp [is_tag_event] at this
          · rw [hb]
            simp only []
            rw [hfa]
            cases cd <;> simp [provenance_value, NIL_P, string_content]
          · rcases hc with rfl | rfl <;> simp at hb
  rw [hfiles]
  cases cd <;> simp

theorem files_slice_handed_to_builder_witness :
    provenance_request.slice_files =
        [⟨"profile.pprof", "<binary>"⟩, ⟨"code-provenance.json", "<json>"⟩] ∧
      provenance_request.slice_files.length = 2 ∧
      provenance_request.slice_files.head? = some ⟨"profile.pprof", "<binary>"⟩ :=
  files_slice_handed_to_builder sample_libddprof quiet_host sample_configuration (.int 10000)
    (.int 1700000000) (.int 0) (.int 1700000060) (.int 0) sample_tags "profile.pprof" "<binary>"
    "code-provenance.json" (some "<json>") 1
    ⟨[.Vec_tag_new, .Vec_tag_push "service" "demo", .PushTagResult_drop,
        .ProfileExporterV3_new [("service", "demo")] (.agent "http://127.0.0.1:8126"),
        .Vec_tag_drop, .CancellationToken_new, .ProfileExporterV3_build provenance_request,
        .ProfileExporterV3_send provenance_request false, .SendResult_drop,
        .CancellationToken_drop, .NewProfileExporterV3Result_drop],
      .ok (.ary [ok_symbol, .int 202])⟩
    provenance_request rfl (by simp)

/-! ## The sampler -/

/-- What `_native_initialize` does with the integer `n` that `NUM2INT` returned
for `max_frames`, for a valid recorder: a scratch buffer of capacity `n` and the
recorder bound when `n` is not negative, the argument error and an untouched
collector when it is. -/
theorem native_initialize_after_num2int (host : SamplerHost) (collector : Collector)
    (recorder_instance max_frames : Value) (n : Int)
    (hrec : host.is_recorder recorder_instance = true)
    (hnum : host.num2int max_frames = .ok n) :
    (0 ≤ n →
        ( _native_initialize host collector recorder_instance max_frames).result = .ok .qtrue ∧
        ( _native_initialize host collector recorder_instance max_frames).trace =
          [.sampling_buffer_new n.toNat] ∧
        ( _native_initialize host collector recorder_instance
            max_frames).collector.state.sampling_buffer = some (sampling_buffer_new n.toNat) ∧
        ((sampling_buffer_new n.toNat).max_frames : Int) = n ∧
        ( _native_initialize host collector recorder_instance
            max_frames).collector.state.recorder_instance = recorder_instance ∧
        ( _native_initialize host collector recorder_instance
            max_frames).collector.state.hash_map_per_thread_context =
          collector.state.hash_map_per_thread_context) ∧
      (n < 0 →
        ( _native_initialize host collector recorder_instance max_frames).result =
          .error (.argError "Invalid max_frames: value must not be negative") ∧
        ( _native_initialize host collector recorder_instance max_frames).trace = [] ∧
        ( _native_initialize host collector recorder_instance max_frames).collector =
          collector) := by
  constructor
  · intro hn
    have hneg : ¬ n < 0 := by omega
    simp [ _native_initialize, hrec, hnum, hneg, sampling_buffer_new, Int.toNat_of_nonneg hn]
  · intro hn
    simp [ _native_initialize, hrec, hnum, hn]


/-- C7, refuted as stated: `max_frames` is read into a C `int` with `NUM2INT`,
so for the integer 2^31, which is not negative, `_native_initialize` raises a
range error instead of succeeding; it creates no scratch buffer. -/
theorem native_initialize_rejects_max_frames_beyond_int :
    ( _native_initialize sample_sampler_host _native_new (.obj 1) (.int 2147483648)).result =
        .error .rangeError ∧
      ( _native_initialize sample_sampler_host _native_new (.obj 1) (.int 2147483648)).trace =
        [] ∧
      ( _native_initialize sample_sampler_host _native_new (.obj 1)
          (.int 2147483648)).collector.state.sampling_buffer = none :=
  ⟨rfl, rfl, rfl⟩

/-- C7, amended: for a valid recorder and an integer `m` converted with
`NUM2INT`: if `0 ≤ m < 2^31`, `_native_initialize` returns true, the scratch
buffer of the state is one created with capacity exactly `m`, the recorder is
bound and the per-thread map is untouched; if `-2^31 ≤ m < 0` it raises the
argument error, creates no scratch buffer and leaves the collector as it was;
if `m` is outside the range of a C `int` it raises a range error, again with no
scratch buffer created and the collector as it was. -/
theorem native_initialize_checks_max_frames_within_int (host : SamplerHost)
    (collector : Collector) (recorder_instance : Value) (m : Int)
    (hrec : host.is_recorder recorder_instance = true) (hnum : host.num2int = NUM2INT) :
    (0 ≤ m ∧ m < 2 ^ 31 →
        ( _native_initialize host collector recorder_instance (.int m)).result = .ok .qtrue ∧
        ( _native_initialize host collector recorder_instance (.int m)).trace =
          [.sampling_buffer_new m.toNat] ∧
        ( _native_initialize host collector recorder_instance
            (.int m)).collector.state.sampling_buffer = some (sampling_buffer_new m.toNat) ∧
        ((sampling_buffer_new m.toNat).max_frames : Int) = m ∧
        ( _native_initialize host collector recorder_instance
            (.int m)).collector.state.recorder_instance = recorder_instance ∧
        ( _native_initialize host collector recorder_instance
            (.int m)).collector.state.hash_map_per_thread_context =
          collector.state.hash_map_per_thread_context) ∧
      (-(2 : Int) ^ 31 ≤ m ∧ m < 0 →
        ( _native_initialize host collector recorder_instance (.int m)).result =
          .error (.argError "Invalid max_frames: value must not be negative") ∧
        ( _native_initialize host collector recorder_instance (.int m)).trace = [] ∧
        ( _native_initialize host collector recorder_instance (.int m)).collector =
          collector) ∧
      (m < -(2 : Int) ^ 31 ∨ (2 : Int) ^ 31 ≤ m →
        ( _native_initialize host collector recorder_instance (.int m)).result =
          .error .rangeError ∧
        ( _native_initialize host collector recorder_instance (.int m)).trace = [] ∧
        ( _native_initialize host collector recorder_instance (.int m)).collector =
          collector) := by
  refine ⟨?_, ?_, ?_⟩
  · intro hm
    have hconv : host.num2int (.int m) = .ok m := by
      rw [hnum]
      have : ¬ (m < -(2 : Int) ^ 31 ∨ (2 : Int) ^ 31 ≤ m) := by omega
      simp only [NUM2INT, if_neg this]
    exact (native_initialize_after_num2int host collector recorder_instance (.int m) m hrec
      hconv).1 hm.1
  · intro hm
    have hconv : host.num2int (.int m) = .ok m := by
      rw [hnum]
      have : ¬ (m < -(2 : Int) ^ 31 ∨ (2 : Int) ^ 31 ≤ m) := by omega
      simp only [NUM2INT, if_neg this]
    exact (native_initialize_after_num2int host collector recorder_instance (.int m) m hrec
      hconv).2 hm.2
  · intro hm
    have hconv : host.num2int (.int m) = .error .rangeError := by
      rw [hnum]
      simp only [NUM2INT, if_pos hm]
    simp [ _native_initialize, hrec, hconv]

theorem native_initialize_checks_max_frames_within_int_witness :
    ( _native_initialize sample_sampler_host _native_new (.obj 1)
        (.int 400)).collector.state.sampling_buffer = some ⟨400⟩ ∧
      ( _native_initialize sample_sampler_host _native_new (.obj 1) (.int (-1))).result =
        .error (.argError "Invalid max_frames: value must not be negative") :=
  ⟨((native_initialize_checks_max_frames_within_int sample_sampler_host _native_new (.obj 1) 400
      rfl rfl).1 (by decide)).2.2.1,
    ((native_initialize_checks_max_frames_within_int sample_sampler_host _native_new (.obj 1)
      (-1) rfl rfl).2.1 (by decide)).1⟩

theorem st_lookup_eq_none_iff (table : st_table) (key : Nat) :
    st_lookup table key = none ↔ key ∉ table.map Prod.fst := by
  simp only [st_lookup, Option.map_eq_none', List.find?_eq_none, List.mem_map, not_exists,
    not_and]
  constructor
  · intro h entry he hk
    exact h entry he (by simp [hk])
  · intro h entry he hk
    exact h entry he (by simpa using hk)

/-- What `get_or_create_context_for` does to the map: nothing for a thread that
has an entry, one appended entry with a fresh context for a thread that has
none. -/
theorem get_or_create_context_for_map (thread : Nat) (collector : Collector) :
    (get_or_create_context_for thread collector).2.1.state.hash_map_per_thread_context =
      collector.state.hash_map_per_thread_context ++
        (if thread ∈ per_thread_keys collector then [] else [(thread, collector.allocated)]) := by
  unfold get_or_create_context_for
  cases h : st_lookup collector.state.hash_map_per_thread_context thread with
  | none =>
    have hk : thread ∉ per_thread_keys collector := (st_lookup_eq_none_iff _ _).1 h
    simp [st_insert, h, hk]
  | some value_context =>
    have hk : thread ∈ per_thread_keys collector := by
      by_contra hne
      rw [(st_lookup_eq_none_iff _ _).2 hne] at h
      cases h
    simp [hk]

theorem get_or_create_context_for_keys (thread : Nat) (collector : Collector) :
    per_thread_keys (get_or_create_context_for thread collector).2.1 =
      per_thread_keys collector ++
        (if thread ∈ per_thread_keys collector then [] else [thread]) := by
  unfold per_thread_keys
  rw [get_or_create_context_for_map]
  unfold per_thread_keys
  split <;> simp

/-- One sampling pass keeps the keys distinct, keeps the entries it found in
place, adds keys only for threads of the enumeration, and has a key for every
thread of the enumeration when it returns. -/
theorem sample_loop_keys (host : SamplerHost) (threads : List Nat) :
    ∀ collector : Collector, (per_thread_keys collector).Nodup →
      (per_thread_keys (sample_loop host threads collector).collector).Nodup ∧
        collector.state.hash_map_per_thread_context <+:
          (sample_loop host threads collector).collector.state.hash_map_per_thread_context ∧
        (∀ t, t ∈ per_thread_keys (sample_loop host threads collector).collector →
          t ∈ per_thread_keys collector ∨ t ∈ threads) ∧
        (∀ t, t ∈ per_thread_keys collector →
          t ∈ per_thread_keys (sample_loop host threads collector).collector) ∧
        ((∃ u, (sample_loop host threads collector).result = .ok u) →
          ∀ t, t ∈ threads → t ∈ per_thread_keys (sample_loop host threads collector).collector) := by
  induction threads with
  | nil =>
    intro collector hnd
    simp [sample_loop, hnd]
  | cons thread rest ih =>
    intro collector hnd
    have hkeys := get_or_create_context_for_keys thread collector
    have hmap := get_or_create_context_for_map thread collector
    have hnd1 : (per_thread_keys (get_or_create_context_for thread collector).2.1).Nodup := by
      rw [hkeys]
      split
      · simpa using hnd
      · rename_i hk
        rw [List.nodup_append]
        refine ⟨hnd, by simp, ?_⟩
        intro a ha hb
        simp only [List.mem_singleton] at hb
        subst hb
        exact absurd ha hk
    have hpre : collector.state.hash_map_per_thread_context <+:
        (get_or_create_context_for thread collector).2.1.state.hash_map_per_thread_context := by
      rw [hmap]
      exact List.prefix_append _ _
    have hin : thread ∈ per_thread_keys (get_or_create_context_for thread collector).2.1 := by
      rw [hkeys]
      split
      · rename_i hk
        simpa using hk
      · simp
    have hsub : ∀ t, t ∈ per_thread_keys (get_or_create_context_for thread collector).2.1 →
        t ∈ per_thread_keys collector ∨ t = thread := by
      intro t ht
      rw [hkeys] at ht
      split at ht
      · exact Or.inl (by simpa using ht)
      · simpa using ht
    have hsup : ∀ t, t ∈ per_thread_keys collector →
        t ∈ per_thread_keys (get_or_create_context_for thread collector).2.1 := by
      intro t ht
      rw [hkeys]
      exact List.mem_append_left _ ht
    obtain ⟨i1, i2, i3, i4, i5⟩ := ih (get_or_create_context_for thread collector).2.1 hnd1
    unfold sample_loop
    simp only []
    split
    · refine ⟨hnd1, hpre, ?_, hsup, ?_⟩
      · intro t ht
        rcases hsub t ht with h | h
        · exact Or.inl h
        · exact Or.inr (by simp [h])
      · rintro ⟨u, hu⟩
        cases hu
    · refine ⟨i1, hpre.trans i2, ?_, fun t ht => i4 t (hsup t ht), ?_⟩
      · intro t ht
        rcases i3 t ht with h | h
        · rcases hsub t h with h2 | h2
          · exact Or.inl h2
          · exact Or.inr (by simp [h2])
        · exact Or.inr (List.mem_cons_of_mem _ h)
      · intro hok t ht
        rcases List.mem_cons.1 ht with h | h
        · subst h
          exact i4 _ hin
        · exact i5 hok t h

theorem sample_passes_keys (host : SamplerHost) (passes : List (List Nat)) :
    ∀ collector final : Collector, (per_thread_keys collector).Nodup →
      sample_passes host passes collector = some final →
      (per_thread_keys final).Nodup ∧
        collector.state.hash_map_per_thread_context <+:
          final.state.hash_map_per_thread_context ∧
        (∀ t, t ∈ per_thread_keys final ↔
          t ∈ per_thread_keys collector ∨ ∃ threads, threads ∈ passes ∧ t ∈ threads) := by
  induction passes with
  | nil =>
    intro collector final hnd h
    simp only [sample_passes, Option.some.injEq] at h
    subst h
    exact ⟨hnd, List.prefix_refl _, by simp⟩
  | cons threads later ih =>
    intro collector final hnd h
    obtain ⟨s1, s2, s3, s4, s5⟩ := sample_loop_keys host threads collector hnd
    unfold sample_passes at h
    unfold sample at h
    split at h
    · rename_i u hu
      obtain ⟨i1, i2, i3⟩ := ih _ final s1 h
      refine ⟨i1, s2.trans i2, ?_⟩
      intro t
      rw [i3]
      constructor
      · rintro (ht | ⟨ths, hths, ht⟩)
        · rcases s3 t ht with h1 | h1
          · exact Or.inl h1
          · exact Or.inr ⟨threads, List.mem_cons_self _ _, h1⟩
        · exact Or.inr ⟨ths, List.mem_cons_of_mem _ hths, ht⟩
      · rintro (ht | ⟨ths, hths, ht⟩)
        · exact Or.inl (s4 t ht)
        · rcases List.mem_cons.1 hths with h1 | h1
          · subst h1
            exact Or.inl (s5 ⟨u, hu⟩ t ht)
          · exact Or.inr ⟨ths, h1, ht⟩
    · cases h

theorem sample_passes_append (host : SamplerHost) (first later : List (List Nat)) :
    ∀ collector : Collector,
      sample_passes host (first ++ later) collector =
        (sample_passes host first collector).bind (sample_passes host later) := by
  induction first with
  | nil => intro collector; rfl
  | cons threads rest ih =>
    intro collector
    simp only [List.cons_append, sample_passes]
    split
    · exact ih _
    · rfl

/-- C8: starting from a freshly allocated collector, after any number of
sampling passes that returned, the keys of the per-thread context map are
exactly the threads of the enumerations of those passes, each key is present
once, and the map after the first `n` passes is an initial segment of the final
map: a repeat sighting neither adds nor replaces an entry. -/
theorem per_thread_keys_are_union_of_enumerations (host : SamplerHost)
    (passes : List (List Nat)) (final : Collector)
    (h : sample_passes host passes _native_new = some final) :
    (per_thread_keys final).Nodup ∧
      (∀ t, t ∈ per_thread_keys final ↔ ∃ threads, threads ∈ passes ∧ t ∈ threads) ∧
      (∀ n mid, sample_passes host (passes.take n) _native_new = some mid →
        mid.state.hash_map_per_thread_context <+: final.state.hash_map_per_thread_context) := by
  have hnew : (per_thread_keys _native_new).Nodup := by
    simp [per_thread_keys, _native_new]
  obtain ⟨h1, _, h3⟩ := sample_passes_keys host passes _native_new final hnew h
  refine ⟨h1, ?_, ?_⟩
  · intro t
    rw [h3]
    simp [per_thread_keys, _native_new]
  · intro n mid hmid
    have hsplit := sample_passes_append host (passes.take n) (passes.drop n) _native_new
    rw [List.take_append_drop, h, hmid] at hsplit
    have hmidnd := (sample_passes_keys host (passes.take n) _native_new mid hnew hmid).1
    exact (sample_passes_keys host (passes.drop n) mid final hmidnd hsplit.symm).2.1

theorem per_thread_keys_are_union_of_enumerations_witness :
    (per_thread_keys sampled_collector).Nodup ∧
      (3 ∈ per_thread_keys sampled_collector ↔
        ∃ threads, threads ∈ [[1, 2], [2, 3], [1]] ∧ 3 ∈ threads) :=
  ⟨(per_thread_keys_are_union_of_enumerations sample_sampler_host [[1, 2], [2, 3], [1]]
      sampled_collector rfl).1,
    (per_thread_keys_are_union_of_enumerations sample_sampler_host [[1, 2], [2, 3], [1]]
      sampled_collector rfl).2.1 3⟩

/-! ## Errors raised before and during tag conversion -/

/-- C12: for a configuration array whose first element is a symbol other than
the agentless and the agent mode, and for every tags array, `create_exporter`
raises the argument error with an empty trace: the endpoint is built before the
tag vector is created, so no foreign call was made. The same holds for
`_native_validate_exporter`, and for `_native_do_export` once its other
arguments passed the checks. -/
theorem create_exporter_rejects_unexpected_mode (ffi : Libddprof) (host : Host) (id : String)
    (rest tags : List Value) (hless : id ≠ agentless_id) (hagent : id ≠ agent_id) :
    create_exporter ffi host (.ary (.sym id :: rest)) (.ary tags) =
        ⟨[], .error unexpected_working_mode⟩ ∧
      _native_validate_exporter ffi host (.ary (.sym id :: rest)) =
        ⟨[], .error unexpected_working_mode⟩ ∧
      ∀ (upload_timeout_milliseconds start_timespec_seconds start_timespec_nanoseconds
          finish_timespec_seconds finish_timespec_nanoseconds pprof_file_name pprof_data
          code_provenance_file_name code_provenance_data : Value) (a : ExportArguments)
        (fuel : Nat),
        ( _native_do_export_arguments upload_timeout_milliseconds start_timespec_seconds
            start_timespec_nanoseconds finish_timespec_seconds finish_timespec_nanoseconds
            pprof_file_name pprof_data code_provenance_file_name
            code_provenance_data).result = .ok a →
        _native_do_export ffi host (.ary (.sym id :: rest)) upload_timeout_milliseconds
            start_timespec_seconds start_timespec_nanoseconds finish_timespec_seconds
            finish_timespec_nanoseconds pprof_file_name pprof_data code_provenance_file_name
            code_provenance_data (.ary tags) fuel =
          some ⟨[], .error unexpected_working_mode⟩ := by
  have hep : endpoint_from (.ary (.sym id :: rest)) = ⟨[], .error unexpected_working_mode⟩ := by
    rw [endpoint_from_symbol (.ary (.sym id :: rest)) id rfl rfl, if_neg hless, if_neg hagent]
  have hce : ∀ elems : List Value,
      create_exporter ffi host (.ary (.sym id :: rest)) (.ary elems) =
        ⟨[], .error unexpected_working_mode⟩ := by
    intro elems
    have hboth : rb_type (Value.ary (.sym id :: rest)) = .T_ARRAY ∧
        rb_type (Value.ary elems) = .T_ARRAY := ⟨rfl, rfl⟩
    rw [create_exporter_eq, if_pos hboth, hep]
  refine ⟨hce tags, ?_, ?_⟩
  · have harr : rb_type (Value.ary (.sym id :: rest)) = .T_ARRAY := rfl
    rw [native_validate_exporter_eq, if_pos harr, hce []]
  · intro t ss sn fs fn pn pd cn cd a fuel ha
    rw [native_do_export_eq, ha, hce tags]

theorem create_exporter_rejects_unexpected_mode_witness :
    create_exporter sample_libddprof quiet_host (.ary [.sym "bogus", .str "x"]) sample_tags =
      ⟨[], .error unexpected_working_mode⟩ :=
  (create_exporter_rejects_unexpected_mode sample_libddprof quiet_host "bogus" [.str "x"]
    [.ary [.str "service", .str "demo"]] (by decide) (by decide)).1

/-- The loop of `convert_tags` raises when an element fails the structure
checks: a type error, unless the logging callback raised first. -/
theorem convert_tags_loop_raises (ffi : Libddprof) (host : Host) (elems : List Value) :
    ∀ (i : Nat) (tags : ddprof_ffi_Vec_tag), (∃ v, v ∈ elems ∧ ¬ well_formed_tag v) →
      ∃ e, (convert_tags_loop ffi host elems i tags).result = .error e ∧
        ((∀ j m, host.log_raises j m = 0) → e = .typeError) := by
  induction elems with
  | nil =>
    intro i tags h
    obtain ⟨v, hv, _⟩ := h
    simp at hv
  | cons name_value_pair rest ih =>
    intro i tags h
    rw [convert_tags_loop_cons]
    by_cases hwf : well_formed_tag name_value_pair
    · have hrest : ∃ v, v ∈ rest ∧ ¬ well_formed_tag v := by
        obtain ⟨v, hv, hbad⟩ := h
        rcases List.mem_cons.1 hv with rfl | hv
        · exact absurd hwf hbad
        · exact ⟨v, hv, hbad⟩
      unfold well_formed_tag at hwf
      rw [if_pos hwf]
      split
      · rename_i err _
        split
        · rename_i hraise
          exact ⟨_, rfl, fun hlog => absurd (hlog i err) hraise⟩
        · exact ih (i + 1) tags hrest
      · exact ih (i + 1) _ hrest
    · unfold well_formed_tag at hwf
      rw [if_neg hwf]
      exact ⟨_, rfl, fun _ => rfl⟩

/-- C13, refuted as stated: for a tags array whose only element is not an array,
and for one whose only pair has a value that is not a string, `convert_tags` has
created the tag vector before it detects the error, and drops it before it
raises. -/
theorem convert_tags_allocates_before_structural_error :
    convert_tags sample_libddprof quiet_host (.ary [.int 3]) =
        ⟨[.Vec_tag_new, .Vec_tag_drop], .error .typeError⟩ ∧
      convert_tags sample_libddprof quiet_host (.ary [.ary [.str "service", .int 1]]) =
        ⟨[.Vec_tag_new, .Vec_tag_drop], .error .typeError⟩ :=
  ⟨rfl, rfl⟩

/-- C13, amended: for every tags array with an element that is not an array
whose entries 0 and 1 are strings, `convert_tags` raises, and it has allocated
the tag vector by then: its trace is the allocation of the vector, events of
single pushes, and one release of the vector right before the raise, so the
vector is released exactly once. The exception is the type error of the
structure check whenever the logging callback does not raise. -/
theorem convert_tags_drops_vector_on_structural_error (ffi : Libddprof) (host : Host)
    (elems : List Value) (hbad : ∃ v, v ∈ elems ∧ ¬ well_formed_tag v) :
    ∃ pushes e, (∀ ev ∈ pushes, is_tag_event ev = true) ∧
      convert_tags ffi host (.ary elems) =
        ⟨.Vec_tag_new :: pushes ++ [.Vec_tag_drop], .error e⟩ ∧
      lifecycle .TagVector (.Vec_tag_new :: pushes) = .live ∧
      lifecycle .TagVector (.Vec_tag_new :: pushes ++ [.Vec_tag_drop]) = .released ∧
      ((∀ j m, host.log_raises j m = 0) → e = .typeError) := by
  obtain ⟨e, he, htype⟩ := convert_tags_loop_raises ffi host elems 0 [] hbad
  obtain ⟨pushes, hp, hshape⟩ := convert_tags_loop_shape ffi host elems 0 []
  rcases hshape with ⟨v, hr, _⟩ | ⟨e2, hr, htr⟩
  · rw [he] at hr
    cases hr
  · rw [he] at hr
    cases hr
    refine ⟨pushes, e, hp, ?_, ?_, ?_, htype⟩
    · rw [convert_tags_array, he, htr]
      rfl
    · simp [lifecycle, Lifecycle.foldl_tag_events _ pushes hp, Lifecycle.step,
        Event.constructs]
    · simp [lifecycle, List.foldl_append, Lifecycle.foldl_tag_events _ pushes hp,
        Lifecycle.step, Event.constructs, Event.releases]

theorem convert_tags_drops_vector_on_structural_error_witness :
    ∃ pushes e,
      convert_tags sample_libddprof quiet_host
          (.ary [.ary [.str "service", .str "demo"], .int 3]) =
        ⟨.Vec_tag_new :: pushes ++ [.Vec_tag_drop], .error e⟩ :=
  let ⟨pushes, e, _, h, _⟩ :=
    convert_tags_drops_vector_on_structural_error sample_libddprof quiet_host
      [.ary [.str "service", .str "demo"], .int 3]
      ⟨.int 3, by simp, by simp [well_formed_tag, rb_type, fixable]⟩
  ⟨pushes, e, h⟩

/-- C14: for every host and every fuel with which `perform_export` ends, the
retry loop ends in exactly one of two ways. Either the send ran and no pending
exception was recorded: the loop made the one send on the built request, and
only the three releases follow it. Or the send did not run and a pending
exception was recorded: the loop made no send, the forced cleanup signals the
cancellation token and then makes the one send, with the token cancelled, and
the exception is re-raised after the releases. In both, the trace has exactly
one send, on the built request. -/
theorem perform_export_sends_exactly_once (ffi : Libddprof) (host : Host)
    (exporter : ddprof_ffi_ProfileExporterV3) (start finish : ddprof_ffi_Timespec)
    (slice_files : List ddprof_ffi_File) (additional_tags : Option ddprof_ffi_Vec_tag)
    (timeout_milliseconds fuel : Nat) (r : Run Value)
    (h : perform_export ffi host (.ok exporter) start finish slice_files additional_tags
      timeout_milliseconds fuel = some r) :
    ∃ loop_trace after_loop,
      perform_export_loop ffi host fuel 0
          ⟨{ exporter := exporter,
              request :=
                ⟨exporter, start, finish, slice_files, additional_tags, timeout_milliseconds⟩,
              result := none, send_ran := false }, false, 0⟩ =
        some (loop_trace, after_loop) ∧
      ((after_loop.args.send_ran = true ∧ after_loop.pending_exception = 0 ∧
          (∃ ubf, loop_trace =
            (if ubf then [Event.CancellationToken_cancel] else []) ++
              [.ProfileExporterV3_send
                ⟨exporter, start, finish, slice_files, additional_tags, timeout_milliseconds⟩
                ubf]) ∧
          r.trace =
            [.CancellationToken_new,
              .ProfileExporterV3_build
                ⟨exporter, start, finish, slice_files, additional_tags,
                  timeout_milliseconds⟩] ++
            loop_trace ++
            [.SendResult_drop, .CancellationToken_drop, .NewProfileExporterV3Result_drop]) ∨
        (after_loop.args.send_ran = false ∧ after_loop.pending_exception ≠ 0 ∧
          loop_trace = [] ∧
          r.trace =
            [.CancellationToken_new,
              .ProfileExporterV3_build
                ⟨exporter, start, finish, slice_files, additional_tags,
                  timeout_milliseconds⟩] ++
            [.CancellationToken_cancel,
              .ProfileExporterV3_send
                ⟨exporter, start, finish, slice_files, additional_tags, timeout_milliseconds⟩
                true] ++
            [.SendResult_drop, .CancellationToken_drop, .NewProfileExporterV3Result_drop] ∧
          r.result = .error (.jump after_loop.pending_exception))) ∧
      ∃ cancelled,
        sends r.trace =
          [(⟨exporter, start, finish, slice_files, additional_tags, timeout_milliseconds⟩,
            cancelled)] := by
  unfold perform_export at h
  simp only [] at h
  cases hl : perform_export_loop ffi host fuel 0
      ⟨{ exporter := exporter,
          request :=
            ⟨exporter, start, finish, slice_files, additional_tags, timeout_milliseconds⟩,
          result := none, send_ran := false }, false, 0⟩ with
  | none => simp [hl] at h
  | some out =>
    rw [hl] at h
    rcases perform_export_loop_exit ffi host fuel 0 _ out rfl rfl hl with ⟨ubf, rfl⟩ | ⟨p, hp, rfl⟩
    · simp only [ne_eq, not_true_eq_false, if_false, Bool.false_or, Option.some.injEq] at h
      subst h
      refine ⟨_, _, rfl, Or.inl ⟨rfl, rfl, ⟨ubf, by simp⟩, by simp⟩, ubf, ?_⟩
      cases ubf <;> simp [sends]
    · simp only [ne_eq, hp, not_false_eq_true, if_true, call_exporter_without_gvl,
        interrupt_exporter_call, Option.some.injEq] at h
      subst h
      exact ⟨_, _, rfl, Or.inr ⟨rfl, hp, rfl, by simp, rfl⟩, true, by simp [sends]⟩

theorem perform_export_sends_exactly_once_witness :
    ∃ cancelled,
      sends
          [.CancellationToken_new, .ProfileExporterV3_build sample_request,
            .CancellationToken_cancel, .ProfileExporterV3_send sample_request true,
            .SendResult_drop, .CancellationToken_drop, .NewProfileExporterV3Result_drop] =
        [(sample_request, cancelled)] :=
  let ⟨_, _, _, _, hsend⟩ :=
    perform_export_sends_exactly_once sample_libddprof pending_host sample_exporter sample_start
      sample_finish sample_files none 10000 1
      ⟨[.CancellationToken_new, .ProfileExporterV3_build sample_request,
          .CancellationToken_cancel, .ProfileExporterV3_send sample_request true,
          .SendResult_drop, .CancellationToken_drop, .NewProfileExporterV3Result_drop],
        .error (.jump 7)⟩
      rfl
  hsend

/-! ## Failures inside a sampling pass -/

theorem get_or_create_context_for_trace (thread : Nat) (collector : Collector) :
    attempted (get_or_create_context_for thread collector).2.2 = [] ∧
      emitted (get_or_create_context_for thread collector).2.2 = [] := by
  unfold get_or_create_context_for
  split <;> simp [attempted, emitted]

/-- The loop of `sample` has no exit of its own: while `sample_thread` returns,
it goes on to the next thread, and it returns when the enumeration is done. -/
theorem sample_loop_visits_all (host : SamplerHost) (threads : List Nat)
    (hret : ∀ t, t ∈ threads → ∀ buffer recorder metric_values e,
      host.sample_thread t buffer recorder metric_values ≠ .raised e) :
    ∀ collector : Collector,
      (sample_loop host threads collector).result = .ok () ∧
        attempted (sample_loop host threads collector).trace = threads := by
  induction threads with
  | nil =>
    intro collector
    simp [sample_loop, attempted]
  | cons thread rest ih =>
    intro collector
    obtain ⟨h1, h2⟩ := ih (fun t ht => hret t (List.mem_cons_of_mem _ ht))
      (get_or_create_context_for thread collector).2.1
    have hthis := hret thread (List.mem_cons_self _ _)
    unfold sample_loop
    simp only []
    split
    · rename_i e he
      exact absurd he (hthis _ _ _ e)
    · refine ⟨h1, ?_⟩
      simp only [attempted, List.filterMap_append] at h2 ⊢
      rw [h2]
      have := (get_or_create_context_for_trace thread collector).1
      simp only [attempted] at this
      rw [this]
      simp

/-- The loop of `sample` does not protect the call of `sample_thread`: an
exception raised there ends the pass and reaches the caller, and no later
thread of the enumeration is visited. -/
theorem sample_loop_stops_at_raise (host : SamplerHost) (before : List Nat) (t : Nat)
    (after : List Nat) (e : RbError)
    (hret : ∀ u, u ∈ before → ∀ buffer recorder metric_values e2,
      host.sample_thread u buffer recorder metric_values ≠ .raised e2)
    (hraise : ∀ buffer recorder metric_values,
      host.sample_thread t buffer recorder metric_values = .raised e) :
    ∀ collector : Collector,
      (sample_loop host (before ++ t :: after) collector).result = .error e ∧
        attempted (sample_loop host (before ++ t :: after) collector).trace = before ++ [t] := by
  induction before with
  | nil =>
    intro collector
    have := (get_or_create_context_for_trace t collector).1
    simp only [attempted] at this
    simp [sample_loop, hraise, attempted, this]
  | cons thread rest ih =>
    intro collector
    obtain ⟨h1, h2⟩ := ih (fun u hu => hret u (List.mem_cons_of_mem _ hu))
      (get_or_create_context_for thread collector).2.1
    have hthis := hret thread (List.mem_cons_self _ _)
    rw [List.cons_append]
    unfold sample_loop
    simp only []
    split
    · rename_i e2 he
      exact absurd he (hthis _ _ _ e2)
    · refine ⟨h1, ?_⟩
      simp only [attempted, List.filterMap_append] at h2 ⊢
      rw [h2]
      have := (get_or_create_context_for_trace thread collector).1
      simp only [attempted] at this
      rw [this]
      simp

theorem sample_loop_emitted (host : SamplerHost) (stack_walk_fails : Nat → Bool)
    (hspec : host.sample_thread = spec_sample_thread stack_walk_fails) (threads : List Nat) :
    ∀ collector : Collector,
      emitted (sample_loop host threads collector).trace =
        threads.filter (fun t => !stack_walk_fails t) := by
  induction threads with
  | nil =>
    intro collector
    simp [sample_loop, emitted]
  | cons thread rest ih =>
    intro collector
    have hrest := ih (get_or_create_context_for thread collector).2.1
    have hnil := (get_or_create_context_for_trace thread collector).2
    simp only [emitted] at hrest hnil
    unfold sample_loop
    simp only [hspec, spec_sample_thread]
    cases hf : stack_walk_fails thread <;>
      simp [emitted, List.filterMap_append, hrest, hnil, hf]

theorem sample_loop_keeps_keys (host : SamplerHost) (threads : List Nat) :
    ∀ (collector : Collector) (u : Nat), u ∈ per_thread_keys collector →
      u ∈ per_thread_keys (sample_loop host threads collector).collector := by
  induction threads with
  | nil =>
    intro collector u hu
    simpa [sample_loop] using hu
  | cons thread rest ih =>
    intro collector u hu
    have hstep : u ∈ per_thread_keys (get_or_create_context_for thread collector).2.1 := by
      rw [get_or_create_context_for_keys]
      exact List.mem_append_left _ hu
    unfold sample_loop
    simp only []
    split
    · exact hstep
    · exact ih _ u hstep

theorem sample_loop_creates_contexts (host : SamplerHost) (threads : List Nat) :
    ∀ collector : Collector, (sample_loop host threads collector).result = .ok () →
      ∀ u, u ∈ threads → u ∈ per_thread_keys (sample_loop host threads collector).collector := by
  induction threads with
  | nil =>
    intro collector _ u hu
    simp at hu
  | cons thread rest ih =>
    intro collector hok u hu
    have hin : thread ∈ per_thread_keys (get_or_create_context_for thread collector).2.1 := by
      rw [get_or_create_context_for_keys]
      split
      · rename_i hk
        simpa using hk
      · simp
    unfold sample_loop at hok ⊢
    simp only [] at hok ⊢
    split
    · rename_i e he
      rw [he] at hok
      cases hok
    · rename_i hne
      split at hok
      · rename_i e he
        exact absurd he (hne e)
      · rcases List.mem_cons.1 hu with rfl | hu
        · exact sample_loop_keeps_keys host rest _ _ hin
        · exact ih _ hok u hu

/-- C11: with `sample_thread` as the specification describes it, for every
sampling pass over an enumeration in which stack-walking fails for a thread
`t`, `sample` returns to its caller without raising, no sample of `t` is
emitted, `sample_thread` is called for every thread of the enumeration in
order, also for those after `t`, every thread of the enumeration has a context
after the pass, and the samples emitted are those of the threads for which
stack-walking did not fail. -/
theorem sample_skips_failed_thread_and_continues (host : SamplerHost)
    (stack_walk_fails : Nat → Bool)
    (hspec : host.sample_thread = spec_sample_thread stack_walk_fails)
    (threads : List Nat) (collector : Collector) (t : Nat) (_ht : t ∈ threads)
    (hfail : stack_walk_fails t = true) :
    (sample host threads collector).result = .ok () ∧
      t ∉ emitted (sample host threads collector).trace ∧
      attempted (sample host threads collector).trace = threads ∧
      (∀ u, u ∈ threads → u ∈ per_thread_keys (sample host threads collector).collector) ∧
      emitted (sample host threads collector).trace =
        threads.filter (fun u => !stack_walk_fails u) := by
  have hret : ∀ u, u ∈ threads → ∀ buffer recorder metric_values e,
      host.sample_thread u buffer recorder metric_values ≠ .raised e := by
    intro u _ buffer recorder metric_values e
    rw [hspec]
    unfold spec_sample_thread
    split <;> simp
  obtain ⟨hok, hatt⟩ := sample_loop_visits_all host threads hret collector
  have hem := sample_loop_emitted host stack_walk_fails hspec threads collector
  unfold sample
  refine ⟨hok, ?_, hatt, sample_loop_creates_contexts host threads collector hok, hem⟩
  rw [hem]
  simp [hfail]

theorem sample_skips_failed_thread_and_continues_witness :
    (sample skipping_sampler_host [1, 2, 3] _native_new).result = .ok () ∧
      2 ∉ emitted (sample skipping_sampler_host [1, 2, 3] _native_new).trace ∧
      attempted (sample skipping_sampler_host [1, 2, 3] _native_new).trace = [1, 2, 3] :=
  let h := sample_skips_failed_thread_and_continues skipping_sampler_host
    (fun thread => thread == 2) rfl [1, 2, 3] _native_new 2 (by decide) rfl
  ⟨h.1, h.2.1, h.2.2.1⟩
